import Mathlib

/-!
Verification of the reasoning-block extraction and rendering engine of
`thinking_tokens_demo.py`, together with the generic `<details>`-block
removal operation exercised by `test_thinking_tokens.py`.

Text is modelled as `List Char`.  Python's `re.IGNORECASE` uses simple
per-character case folding, modelled here by lowering ASCII letters at
the code-point level (`lowN`).  Wall-clock timestamps (`started_at`,
`ended_at`) are not representable in a pure embedding and are omitted;
the code stores the constant duration `1` in every block, which is kept.
-/

/-- ASCII lowercase at the code-point level: the model of simple case
folding used by `re.IGNORECASE` on the character sets involved. -/
def lowN (n : Nat) : Nat := if 65 ≤ n ∧ n ≤ 90 then n + 32 else n

/-- Case-insensitive character comparison (model of `re.IGNORECASE`). -/
def eqI (a b : Char) : Bool := lowN a.toNat == lowN b.toNat

/-- Exact character comparison (used by `str.replace`). -/
def eqE (a b : Char) : Bool := a == b

/-- Whitespace as recognized by Python's `str.strip` and the regex class
`\s` (restricted to the ASCII set, which is the set exercised here). -/
def isSpace (c : Char) : Bool :=
  c == ' ' || c == '\t' || c == '\n' || c == '\r' ||
  c == Char.ofNat 11 || c == Char.ofNat 12

/-- String literal to character list. -/
def strL (s : String) : List Char := s.toList

/-- `startsWithBy eq needle hay`: `hay` begins with `needle`, comparing
characters with `eq`. -/
def startsWithBy (eq : Char → Char → Bool) : List Char → List Char → Bool
  | [], _ => true
  | _ :: _, [] => false
  | a :: as, b :: bs => eq a b && startsWithBy eq as bs

/-- If `hay` begins with `needle` (under `eq`), return the matched slice
of `hay` and the remainder. -/
def stripPrefixBy (eq : Char → Char → Bool) (needle hay : List Char) :
    Option (List Char × List Char) :=
  if startsWithBy eq needle hay then some (hay.take needle.length, hay.drop needle.length)
  else none

/-- Scan a text left to right, applying `att` at every position; at the
first position where `att` succeeds, return the text before the match,
the matched slice, and the remainder.  This is the leftmost-match
discipline of Python's `re` scanning loop. -/
def scanFirst (att : List Char → Option (List Char × List Char)) :
    List Char → Option (List Char × List Char × List Char)
  | [] =>
    match att [] with
    | some (m, r) => some ([], m, r)
    | none => none
  | c :: rest =>
    match att (c :: rest) with
    | some (m, r) => some ([], m, r)
    | none => (scanFirst att rest).map (fun x => (c :: x.1, x.2.1, x.2.2))

/-- First occurrence of a literal `needle` in `hay` under `eq`. -/
def splitFirstBy (eq : Char → Char → Bool) (needle hay : List Char) :
    Option (List Char × List Char × List Char) :=
  scanFirst (stripPrefixBy eq needle) hay

/-- Case-insensitive first occurrence (regex literal with `IGNORECASE`). -/
def splitFirstI (needle hay : List Char) : Option (List Char × List Char × List Char) :=
  splitFirstBy eqI needle hay

/-- Exact first occurrence (as used by `str.replace`). -/
def splitFirstE (needle hay : List Char) : Option (List Char × List Char × List Char) :=
  splitFirstBy eqE needle hay

/-- Number of positions of `hay` at which `needle` matches under `eq`. -/
def countBy (eq : Char → Char → Bool) (needle : List Char) : List Char → Nat
  | [] => if startsWithBy eq needle [] then 1 else 0
  | c :: rest => (if startsWithBy eq needle (c :: rest) then 1 else 0) + countBy eq needle rest

/-- Case-insensitive occurrence count. -/
def countI (needle hay : List Char) : Nat := countBy eqI needle hay

/-- Exact occurrence count. -/
def countE (needle hay : List Char) : Nat := countBy eqE needle hay

/-- One match of the regex `escape(s)(.*?)escape(e)` under
`DOTALL | IGNORECASE`: the leftmost occurrence of `s`, then the lazy
(shortest) content up to the nearest following occurrence of `e`.
Returns `(before, fullMatch, group1, after)`. -/
def matchOnce (s e hay : List Char) :
    Option (List Char × List Char × List Char × List Char) :=
  match splitFirstI s hay with
  | none => none
  | some (p, sm, afterS) =>
    match splitFirstI e afterS with
    | none => none
    | some (c, em, rest) => some (p, sm ++ c ++ em, c, rest)

/-- Fuelled iteration of `matchOnce` (model of `re.finditer`): collect
non-overlapping matches left to right, each as `(fullMatch, group1)`. -/
def finditerFuel (s e : List Char) : Nat → List Char → List (List Char × List Char)
  | 0, _ => []
  | fuel + 1, hay =>
    match matchOnce s e hay with
    | none => []
    | some (_, full, grp, rest) => (full, grp) :: finditerFuel s e fuel rest

/-- `re.finditer` for the pattern `escape(s)(.*?)escape(e)` with
`DOTALL | IGNORECASE`.  Every match consumes at least one character
(the tags are non-empty), so `hay.length + 1` fuel always suffices. -/
def finditer (s e hay : List Char) : List (List Char × List Char) :=
  finditerFuel s e (hay.length + 1) hay

/-- Python `str.strip`: trim leading and trailing whitespace. -/
def strip (l : List Char) : List Char :=
  ((l.dropWhile isSpace).reverse.dropWhile isSpace).reverse

/-- The `DEFAULT_REASONING_TAGS` table of `ThinkingTokenProcessor`. -/
def DEFAULT_REASONING_TAGS : List (List Char × List Char) :=
  [ (strL "<think>", strL "</think>"),
    (strL "<thinking>", strL "</thinking>"),
    (strL "<reason>", strL "</reason>"),
    (strL "<reasoning>", strL "</reasoning>"),
    (strL "<thought>", strL "</thought>"),
    (strL "<Thought>", strL "</Thought>"),
    (strL "<|begin_of_thought|>", strL "<|end_of_thought|>"),
    ([Char.ofNat 0xE2, Char.ofNat 0x2014, 't', 'h', 'i', 'n', 'k',
      Char.ofNat 0xE2, Char.ofNat 0x2013, Char.ofNat 0xB7],
     [Char.ofNat 0xE2, Char.ofNat 0x2014, '/', 't', 'h', 'i', 'n', 'k',
      Char.ofNat 0xE2, Char.ofNat 0x2013, Char.ofNat 0xB7]) ]

/-- One reasoning block as built by `detect_reasoning_tags`.  The
wall-clock fields `started_at` / `ended_at` are omitted (pure model);
`duration` is the constant the code stores. -/
structure Block where
  type : List Char
  start_tag : List Char
  end_tag : List Char
  content : List Char
  duration : Nat
  original_match : List Char
deriving DecidableEq, Repr

/-- Blocks contributed by one marker pair: every `finditer` match whose
stripped group is non-empty (the `if reasoning_content:` filter). -/
def pairBlocks (content : List Char) (p : List Char × List Char) : List Block :=
  (finditer p.1 p.2 content).filterMap (fun m =>
    let rc := strip m.2
    if rc.isEmpty then none
    else some ⟨strL "reasoning", p.1, p.2, rc, 1, m.1⟩)

/-- `ThinkingTokenProcessor.detect_reasoning_tags`. -/
def detect_reasoning_tags (content : List Char) : List Block :=
  (DEFAULT_REASONING_TAGS.map (pairBlocks content)).flatten

/-- Fuelled loop of `str.replace(old, "")`: delete every non-overlapping
exact occurrence of `old`, left to right. -/
def replaceAllFuel (old : List Char) : Nat → List Char → List Char
  | 0, hay => hay
  | fuel + 1, hay =>
    match splitFirstE old hay with
    | none => hay
    | some (p, _, rest) => p ++ replaceAllFuel old fuel rest

/-- Python `hay.replace(old, "")` for non-empty `old`. -/
def replaceAll (old hay : List Char) : List Char :=
  replaceAllFuel old (hay.length + 1) hay

/-- Split a list after its last newline: `some (upToNl, after)` where
`upToNl` ends in the last `'\n'` of the list, or `none` if none. -/
def splitAfterLastNl : List Char → Option (List Char × List Char)
  | [] => none
  | c :: rest =>
    match splitAfterLastNl rest with
    | some (u, v) => some (c :: u, v)
    | none => if c = '\n' then some ([c], rest) else none

/-- One greedy match of the regex `\n\s*\n` starting at the head of the
text: a newline, the maximal following whitespace run backtracked to its
last newline. -/
def attemptNl (hay : List Char) : Option (List Char × List Char) :=
  match hay with
  | '\n' :: t =>
    match splitAfterLastNl (t.takeWhile isSpace) with
    | some (u, v) => some ('\n' :: u, v ++ t.dropWhile isSpace)
    | none => none
  | _ => none

/-- Fuelled `re.sub(r'\n\s*\n', '\n\n', ·)`. -/
def collapseFuel : Nat → List Char → List Char
  | 0, l => l
  | fuel + 1, l =>
    match scanFirst attemptNl l with
    | none => l
    | some (p, _, r) => p ++ '\n' :: '\n' :: collapseFuel fuel r

/-- `re.sub(r'\n\s*\n', '\n\n', l)`: collapse runs of blank lines. -/
def collapseBlank (l : List Char) : List Char := collapseFuel (l.length + 1) l

/-- The whitespace cleanup of `process_content`:
`re.sub(r'\n\s*\n', '\n\n', text).strip()`. -/
def cleanWhitespace (l : List Char) : List Char := strip (collapseBlank l)

/-- The dictionary returned by `process_content`. -/
structure ProcessedData where
  main_content : List Char
  reasoning_blocks : List Block
  total_reasoning_time : Nat
deriving DecidableEq, Repr

/-- `ThinkingTokenProcessor.process_content`. -/
def process_content (content : List Char) : ProcessedData :=
  let blocks := detect_reasoning_tags content
  let processed := blocks.foldl (fun acc b => replaceAll b.original_match acc) content
  ⟨cleanWhitespace processed, blocks, (blocks.map Block.duration).sum⟩

/-- Python `str.splitlines` restricted to `'\n'` breaks: a terminal
newline produces no extra empty line, the empty string has no lines. -/
def splitlines : List Char → List (List Char)
  | [] => []
  | c :: rest =>
    if c = '\n' then [] :: splitlines rest
    else
      match splitlines rest with
      | [] => [[c]]
      | l :: ls => (c :: l) :: ls

/-- `f"> {line}" if not line.startswith(">") else line`. -/
def quoteLine (l : List Char) : List Char :=
  match l with
  | '>' :: _ => l
  | _ => '>' :: ' ' :: l

/-- The blockquote-style reformatting of a block's content. -/
def formatReasoning (content : List Char) : List Char :=
  List.intercalate ['\n'] ((splitlines content).map quoteLine)

/-- Decimal rendering of a natural number (Python `str`). -/
def natChars (n : Nat) : List Char := (Nat.repr n).toList

/-- The HTML `<details>` block built for one reasoning block. -/
def htmlBlock (b : Block) : List Char :=
  strL "<details type=\"reasoning\" done=\"true\" duration=\"" ++ natChars b.duration ++
  strL "\">\n<summary>Thought for " ++ natChars b.duration ++ strL " second" ++
  (if b.duration ≠ 1 then strL "s" else []) ++ strL "</summary>\n" ++
  formatReasoning b.content ++ strL "\n</details>"

/-- `ThinkingTokenProcessor.generate_html_output`. -/
def generate_html_output (p : ProcessedData) : List Char :=
  let parts := p.reasoning_blocks.map htmlBlock
  let parts := if p.main_content.isEmpty then parts else parts ++ [p.main_content]
  List.intercalate (strL "\n\n") parts

/-- One attempted match, anchored at the head of `hay`, of the pattern
`<details\s+type="{ty}"[^>]*>.*?</details>` with `DOTALL | IGNORECASE`
(the removal pattern of `test_remove_details_functionality`). -/
def detailsTryHead (ty : List Char) (hay : List Char) : Option (List Char × List Char) :=
  match stripPrefixBy eqI (strL "<details") hay with
  | none => none
  | some (s1, r1) =>
    let w := r1.takeWhile isSpace
    if w.isEmpty then none
    else
      match stripPrefixBy eqI (strL "type=\"" ++ ty ++ strL "\"") (r1.dropWhile isSpace) with
      | none => none
      | some (s3, r3) =>
        let a := r3.takeWhile (fun c => c ≠ '>')
        match stripPrefixBy eqE (strL ">") (r3.drop a.length) with
        | none => none
        | some (g, r4) =>
          match splitFirstI (strL "</details>") r4 with
          | none => none
          | some (c, em, rest) => some (s1 ++ w ++ s3 ++ a ++ g ++ c ++ em, rest)

/-- Fuelled `re.sub(pattern, '', content)` loop for one type name. -/
def removeTypeFuel (ty : List Char) : Nat → List Char → List Char
  | 0, hay => hay
  | fuel + 1, hay =>
    match scanFirst (detailsTryHead ty) hay with
    | none => hay
    | some (p, _, rest) => p ++ removeTypeFuel ty fuel rest

/-- Remove every `<details type="{ty}" ...>...</details>` block. -/
def removeType (ty hay : List Char) : List Char :=
  removeTypeFuel ty (hay.length + 1) hay

/-- The removal loop of `test_remove_details_functionality`: strip the
named block types in order. -/
def removeDetails (tys : List (List Char)) (hay : List Char) : List Char :=
  tys.foldl (fun acc ty => removeType ty acc) hay

/-! ### Basic lemmas about the scanning primitives -/

theorem take_len_append (a b : List Char) : (a ++ b).take a.length = a := by
  induction a with
  | nil => rfl
  | cons c t ih => simp [ih]

theorem drop_len_append (a b : List Char) : (a ++ b).drop a.length = b := by
  induction a with
  | nil => rfl
  | cons c t ih => simp [ih]

theorem eqI_refl (c : Char) : eqI c c = true := by simp [eqI]

theorem eqE_refl (c : Char) : eqE c c = true := by simp [eqE]

theorem eqE_imp_eqI (a b : Char) (h : eqE a b = true) : eqI a b = true := by
  simp [eqE] at h
  subst h
  exact eqI_refl a

theorem startsWithBy_refl_append (eq : Char → Char → Bool) (hr : ∀ c, eq c c = true)
    (n t : List Char) : startsWithBy eq n (n ++ t) = true := by
  induction n with
  | nil => rfl
  | cons c m ih => simp [startsWithBy, hr c, ih]

theorem startsWithBy_of_append (eq : Char → Char → Bool) (n1 n2 t : List Char)
    (h : startsWithBy eq (n1 ++ n2) t = true) : startsWithBy eq n1 t = true := by
  induction n1 generalizing t with
  | nil => rfl
  | cons c m ih =>
    cases t with
    | nil => simp [startsWithBy] at h
    | cons d u =>
      simp [startsWithBy] at h ⊢
      exact ⟨h.1, ih u h.2⟩

theorem startsWithBy_imp {eqA eqB : Char → Char → Bool}
    (himp : ∀ a b, eqA a b = true → eqB a b = true) (n t : List Char)
    (h : startsWithBy eqA n t = true) : startsWithBy eqB n t = true := by
  induction n generalizing t with
  | nil => rfl
  | cons c m ih =>
    cases t with
    | nil => simp [startsWithBy] at h
    | cons d u =>
      simp [startsWithBy] at h ⊢
      exact ⟨himp _ _ h.1, ih u h.2⟩

theorem stripPrefixBy_refl_append (eq : Char → Char → Bool) (hr : ∀ c, eq c c = true)
    (n t : List Char) : stripPrefixBy eq n (n ++ t) = some (n, t) := by
  simp [stripPrefixBy, startsWithBy_refl_append eq hr, take_len_append, drop_len_append]

theorem scanFirst_pos (att : List Char → Option (List Char × List Char))
    (hay m r : List Char) (h : att hay = some (m, r)) :
    scanFirst att hay = some ([], m, r) := by
  cases hay <;> simp [scanFirst, h]

theorem scanFirst_cons_none (att : List Char → Option (List Char × List Char))
    (c : Char) (rest : List Char) (h : att (c :: rest) = none) :
    scanFirst att (c :: rest) =
      (scanFirst att rest).map (fun x => (c :: x.1, x.2.1, x.2.2)) := by
  simp [scanFirst, h]

theorem scanFirst_append (att : List Char → Option (List Char × List Char))
    (a b : List Char) (h : ∀ i, i < a.length → att ((a ++ b).drop i) = none) :
    scanFirst att (a ++ b) =
      (scanFirst att b).map (fun x => (a ++ x.1, x.2.1, x.2.2)) := by
  induction a with
  | nil =>
    cases hb : scanFirst att b with
    | none => simp [hb]
    | some x => simp [hb]
  | cons c t ih =>
    have h0 : att (c :: (t ++ b)) = none := by simpa using h 0 (by simp)
    have ih' := ih (fun i hi => by simpa using h (i + 1) (by simpa using Nat.succ_lt_succ hi))
    rw [List.cons_append, scanFirst_cons_none att c (t ++ b) h0, ih']
    cases scanFirst att b with
    | none => simp
    | some x => simp

theorem scanFirst_none (att : List Char → Option (List Char × List Char))
    (a : List Char) (h : ∀ i, i ≤ a.length → att (a.drop i) = none) :
    scanFirst att a = none := by
  induction a with
  | nil =>
    have h0 : att [] = none := by simpa using h 0 (by simp)
    simp [scanFirst, h0]
  | cons c t ih =>
    have h0 : att (c :: t) = none := by simpa using h 0 (by simp)
    have ih' := ih (fun i hi => by
      simpa using h (i + 1) (by simp only [List.length_cons]; omega))
    simp [scanFirst, h0, ih']

theorem countBy_cons (eq : Char → Char → Bool) (n : List Char) (c : Char) (l : List Char) :
    countBy eq n (c :: l) = (if startsWithBy eq n (c :: l) then 1 else 0) + countBy eq n l :=
  rfl

theorem countBy_ge_right (eq : Char → Char → Bool) (n a b : List Char) :
    countBy eq n b ≤ countBy eq n (a ++ b) := by
  induction a with
  | nil => simp
  | cons c t ih =>
    rw [List.cons_append, countBy_cons]
    split <;> omega

theorem countBy_pos (eq : Char → Char → Bool) (n hay : List Char)
    (h : startsWithBy eq n hay = true) : 1 ≤ countBy eq n hay := by
  cases hay <;> simp [countBy, h]

theorem countBy_le_countBy {eqA eqB : Char → Char → Bool} {nA nB : List Char}
    (hmono : ∀ t, startsWithBy eqA nA t = true → startsWithBy eqB nB t = true)
    (l : List Char) : countBy eqA nA l ≤ countBy eqB nB l := by
  induction l with
  | nil =>
    by_cases h : startsWithBy eqA nA [] = true
    · simp [countBy, h, hmono [] h]
    · simp [countBy, h]
  | cons c t ih =>
    rw [countBy_cons, countBy_cons]
    by_cases h : startsWithBy eqA nA (c :: t) = true
    · rw [if_pos h, if_pos (hmono _ h)]
      omega
    · rw [if_neg h]
      cases hs : startsWithBy eqB nB (c :: t) <;> simp [hs] <;> omega

theorem no_starts_of_countBy_eq (eq : Char → Char → Bool) (n a b : List Char)
    (h : countBy eq n (a ++ b) = countBy eq n b) :
    ∀ i, i < a.length → startsWithBy eq n ((a ++ b).drop i) = false := by
  induction a with
  | nil => intro i hi; simp at hi
  | cons c t ih =>
    intro i hi
    have hle := countBy_ge_right eq n t b
    have hx : countBy eq n ((c :: t) ++ b) =
        (if startsWithBy eq n (c :: (t ++ b)) then 1 else 0) + countBy eq n (t ++ b) := rfl
    rw [hx] at h
    have hs : startsWithBy eq n (c :: (t ++ b)) = false := by
      by_cases hs' : startsWithBy eq n (c :: (t ++ b)) = true
      · rw [hs'] at h; simp at h; omega
      · simpa using hs'
    rw [hs] at h
    simp at h
    match i with
    | 0 => simpa using hs
    | i + 1 =>
      have := ih h i (by simp only [List.length_cons] at hi; omega)
      simpa using this

theorem no_starts_of_countBy_zero (eq : Char → Char → Bool) (n a : List Char)
    (h : countBy eq n a = 0) :
    ∀ i, i ≤ a.length → startsWithBy eq n (a.drop i) = false := by
  induction a with
  | nil =>
    intro i hi
    have hi0 : i = 0 := by simpa using hi
    subst hi0
    simp only [List.drop_nil]
    by_cases hs : startsWithBy eq n [] = true
    · simp [countBy, hs] at h
    · simpa using hs
  | cons c t ih =>
    intro i hi
    have hx : countBy eq n (c :: t) =
        (if startsWithBy eq n (c :: t) then 1 else 0) + countBy eq n t := rfl
    rw [hx] at h
    have hs : startsWithBy eq n (c :: t) = false := by
      by_cases hs' : startsWithBy eq n (c :: t) = true
      · rw [hs'] at h; simp at h
      · simpa using hs'
    rw [hs] at h
    simp at h
    match i with
    | 0 => simpa using hs
    | i + 1 =>
      have := ih h i (by simp only [List.length_cons] at hi; omega)
      simpa using this

theorem splitFirstBy_append (eq : Char → Char → Bool) (n a b : List Char)
    (h : countBy eq n (a ++ b) = countBy eq n b) :
    splitFirstBy eq n (a ++ b) =
      (splitFirstBy eq n b).map (fun x => (a ++ x.1, x.2.1, x.2.2)) := by
  unfold splitFirstBy
  apply scanFirst_append
  intro i hi
  simp [stripPrefixBy, no_starts_of_countBy_eq eq n a b h i hi]

theorem splitFirstBy_head (eq : Char → Char → Bool) (hr : ∀ c, eq c c = true)
    (n t : List Char) : splitFirstBy eq n (n ++ t) = some ([], n, t) :=
  scanFirst_pos _ _ _ _ (stripPrefixBy_refl_append eq hr n t)

theorem splitFirstBy_none (eq : Char → Char → Bool) (n a : List Char)
    (h : countBy eq n a = 0) : splitFirstBy eq n a = none := by
  unfold splitFirstBy
  apply scanFirst_none
  intro i hi
  simp [stripPrefixBy, no_starts_of_countBy_zero eq n a h i hi]

/-! ### Lemmas about `matchOnce`, `finditer`, `replaceAll` and `detect` -/

theorem finditerFuel_nil (s e hay : List Char) (h : matchOnce s e hay = none) :
    ∀ f, finditerFuel s e f hay = [] := by
  intro f
  cases f with
  | zero => rfl
  | succ f => simp [finditerFuel, h]

theorem matchOnce_none_of_no_start (s e hay : List Char) (h : countI s hay = 0) :
    matchOnce s e hay = none := by
  unfold matchOnce splitFirstI
  rw [splitFirstBy_none eqI s hay h]

theorem matchOnce_eq (s e hay p sm afterS cc em rest : List Char)
    (h1 : splitFirstI s hay = some (p, sm, afterS))
    (h2 : splitFirstI e afterS = some (cc, em, rest)) :
    matchOnce s e hay = some (p, sm ++ cc ++ em, cc, rest) := by
  unfold matchOnce
  rw [h1]
  dsimp only
  rw [h2]

theorem matchOnce_none_snd (s e hay p sm afterS : List Char)
    (h1 : splitFirstI s hay = some (p, sm, afterS))
    (h2 : splitFirstI e afterS = none) :
    matchOnce s e hay = none := by
  unfold matchOnce
  rw [h1]
  dsimp only
  rw [h2]

theorem finditerFuel_succ_some (s e hay p full grp rest : List Char) (f : Nat)
    (h : matchOnce s e hay = some (p, full, grp, rest)) :
    finditerFuel s e (f + 1) hay = (full, grp) :: finditerFuel s e f rest := by
  simp [finditerFuel, h]

theorem replaceAllFuel_succ_some (old hay p mm rest : List Char) (f : Nat)
    (h : splitFirstE old hay = some (p, mm, rest)) :
    replaceAllFuel old (f + 1) hay = p ++ replaceAllFuel old f rest := by
  simp [replaceAllFuel, h]

theorem finditer_nil_of_no_start (s e hay : List Char) (h : countI s hay = 0) :
    finditer s e hay = [] :=
  finditerFuel_nil s e hay (matchOnce_none_of_no_start s e hay h) _

/-- On a text of the shape `p ++ s ++ c ++ e ++ t` in which `s` and `e`
each match at exactly one position, `finditer` yields exactly the single
designated match. -/
theorem finditer_single (s e p c t : List Char) (hs0 : s ≠ [])
    (hcs : countI s (p ++ (s ++ (c ++ (e ++ t)))) = 1)
    (hce : countI e (p ++ (s ++ (c ++ (e ++ t)))) = 1) :
    finditer s e (p ++ (s ++ (c ++ (e ++ t)))) = [(s ++ c ++ e, c)] := by
  unfold countI at hcs hce
  have hT : startsWithBy eqI s (s ++ (c ++ (e ++ t))) = true :=
    startsWithBy_refl_append eqI eqI_refl s (c ++ (e ++ t))
  have h1 : 1 ≤ countBy eqI s (s ++ (c ++ (e ++ t))) := countBy_pos eqI s _ hT
  have h2 : countBy eqI s (s ++ (c ++ (e ++ t))) ≤
      countBy eqI s (p ++ (s ++ (c ++ (e ++ t)))) := countBy_ge_right eqI s p _
  have hsT : countBy eqI s (s ++ (c ++ (e ++ t))) = 1 := by omega
  have hsp : splitFirstI s (p ++ (s ++ (c ++ (e ++ t)))) = some (p, s, c ++ (e ++ t)) := by
    unfold splitFirstI
    rw [splitFirstBy_append eqI s p (s ++ (c ++ (e ++ t))) (by omega),
      splitFirstBy_head eqI eqI_refl s (c ++ (e ++ t))]
    simp
  have he1 : 1 ≤ countBy eqI e (e ++ t) :=
    countBy_pos eqI e _ (startsWithBy_refl_append eqI eqI_refl e t)
  have he2 : countBy eqI e (e ++ t) ≤ countBy eqI e (c ++ (e ++ t)) :=
    countBy_ge_right eqI e c _
  have he3 : countBy eqI e (c ++ (e ++ t)) ≤ countBy eqI e (s ++ (c ++ (e ++ t))) :=
    countBy_ge_right eqI e s _
  have he4 : countBy eqI e (s ++ (c ++ (e ++ t))) ≤
      countBy eqI e (p ++ (s ++ (c ++ (e ++ t)))) := countBy_ge_right eqI e p _
  have hep : splitFirstI e (c ++ (e ++ t)) = some (c, e, t) := by
    unfold splitFirstI
    rw [splitFirstBy_append eqI e c (e ++ t) (by omega),
      splitFirstBy_head eqI eqI_refl e t]
    simp
  have hm : matchOnce s e (p ++ (s ++ (c ++ (e ++ t)))) = some (p, s ++ c ++ e, c, t) :=
    matchOnce_eq s e _ p s (c ++ (e ++ t)) c e t hsp hep
  obtain ⟨c0, s', rfl⟩ : ∃ c0 s', s = c0 :: s' := by
    cases s with
    | nil => exact absurd rfl hs0
    | cons c0 s' => exact ⟨c0, s', rfl⟩
  have hT' : startsWithBy eqI (c0 :: s') (c0 :: (s' ++ (c ++ (e ++ t)))) = true := by
    rw [← List.cons_append]
    exact hT
  have hz1 : countBy eqI (c0 :: s') (s' ++ (c ++ (e ++ t))) = 0 := by
    have := countBy_cons eqI (c0 :: s') c0 (s' ++ (c ++ (e ++ t)))
    rw [hT'] at this
    simp at this
    have hsT' : countBy eqI (c0 :: s') (c0 :: (s' ++ (c ++ (e ++ t)))) = 1 := by
      rw [← List.cons_append] at *
      exact hsT
    omega
  have hz2 : countBy eqI (c0 :: s') t ≤ countBy eqI (c0 :: s') (e ++ t) :=
    countBy_ge_right eqI _ e t
  have hz3 : countBy eqI (c0 :: s') (e ++ t) ≤ countBy eqI (c0 :: s') (c ++ (e ++ t)) :=
    countBy_ge_right eqI _ c _
  have hz4 : countBy eqI (c0 :: s') (c ++ (e ++ t)) ≤
      countBy eqI (c0 :: s') (s' ++ (c ++ (e ++ t))) := countBy_ge_right eqI _ s' _
  have hz : countI (c0 :: s') t = 0 := by unfold countI; omega
  have hm2 : matchOnce (c0 :: s') e t = none := matchOnce_none_of_no_start _ e t hz
  unfold finditer
  rw [finditerFuel_succ_some _ _ _ _ _ _ _ _ hm, finditerFuel_nil _ e t hm2]

theorem replaceAllFuel_id (old hay : List Char) (h : splitFirstE old hay = none) :
    ∀ f, replaceAllFuel old f hay = hay := by
  intro f
  cases f with
  | zero => rfl
  | succ f => simp [replaceAllFuel, h]

/-- Deleting a pattern that occurs (exactly) at exactly one position of
`p ++ m ++ t` yields `p ++ t`. -/
theorem replaceAll_single (m p t : List Char) (hm0 : m ≠ [])
    (hc : countE m (p ++ (m ++ t)) = 1) :
    replaceAll m (p ++ (m ++ t)) = p ++ t := by
  unfold countE at hc
  have hT : startsWithBy eqE m (m ++ t) = true :=
    startsWithBy_refl_append eqE eqE_refl m t
  have h1 : 1 ≤ countBy eqE m (m ++ t) := countBy_pos eqE m _ hT
  have h2 : countBy eqE m (m ++ t) ≤ countBy eqE m (p ++ (m ++ t)) :=
    countBy_ge_right eqE m p _
  have hsp : splitFirstE m (p ++ (m ++ t)) = some (p, m, t) := by
    unfold splitFirstE
    rw [splitFirstBy_append eqE m p (m ++ t) (by omega),
      splitFirstBy_head eqE eqE_refl m t]
    simp
  obtain ⟨c0, m', rfl⟩ : ∃ c0 m', m = c0 :: m' := by
    cases m with
    | nil => exact absurd rfl hm0
    | cons c0 m' => exact ⟨c0, m', rfl⟩
  have hT' : startsWithBy eqE (c0 :: m') (c0 :: (m' ++ t)) = true := by
    rw [← List.cons_append]
    exact hT
  have hz1 : countBy eqE (c0 :: m') (m' ++ t) = 0 := by
    have := countBy_cons eqE (c0 :: m') c0 (m' ++ t)
    rw [hT'] at this
    simp at this
    have h12 : countBy eqE (c0 :: m') (c0 :: (m' ++ t)) = 1 := by
      rw [← List.cons_append] at *
      omega
    omega
  have hz2 : countBy eqE (c0 :: m') t ≤ countBy eqE (c0 :: m') (m' ++ t) :=
    countBy_ge_right eqE _ m' t
  have hz : splitFirstE (c0 :: m') t = none := by
    unfold splitFirstE
    exact splitFirstBy_none eqE _ t (by omega)
  unfold replaceAll
  rw [replaceAllFuel_succ_some _ _ _ _ _ _ hsp, replaceAllFuel_id _ t hz]

theorem flatten_map_nil {α β : Type} (f : α → List β) (l : List α)
    (h : ∀ q ∈ l, f q = []) : (l.map f).flatten = [] := by
  induction l with
  | nil => rfl
  | cons a tl ih =>
    simp [h a (List.mem_cons_self a tl),
      ih (fun q hq => h q (List.mem_cons_of_mem a hq))]

theorem flatten_map_single {α β : Type} [DecidableEq α] (f : α → List β) (l : List α)
    (p : α) (hnd : l.Nodup) (hmem : p ∈ l) (hz : ∀ q ∈ l, q ≠ p → f q = []) :
    (l.map f).flatten = f p := by
  induction l with
  | nil => cases hmem
  | cons a tl ih =>
    by_cases hap : a = p
    · subst hap
      have hall : ∀ q ∈ tl, f q = [] := by
        intro q hq
        refine hz q (List.mem_cons_of_mem a hq) ?_
        rintro rfl
        exact (List.nodup_cons.mp hnd).1 hq
      simp [flatten_map_nil f tl hall]
    · have hfa : f a = [] := hz a (List.mem_cons_self a tl) hap
      have hmem' : p ∈ tl := by
        rcases List.mem_cons.mp hmem with h | h
        · exact absurd h.symm hap
        · exact h
      simp [hfa, ih (List.nodup_cons.mp hnd).2 hmem'
        (fun q hq hqp => hz q (List.mem_cons_of_mem a hq) hqp)]

/-- If every marker pair other than `pq` has no match in `text`, then
`detect_reasoning_tags` consists of `pq`'s blocks alone. -/
theorem detect_single (text : List Char) (pq : List Char × List Char)
    (hmem : pq ∈ DEFAULT_REASONING_TAGS)
    (hz : ∀ q ∈ DEFAULT_REASONING_TAGS, q ≠ pq → finditer q.1 q.2 text = []) :
    detect_reasoning_tags text = pairBlocks text pq := by
  unfold detect_reasoning_tags
  refine flatten_map_single _ _ pq (by decide) hmem ?_
  intro q hq hne
  unfold pairBlocks
  rw [hz q hq hne]
  rfl

/-! ### Lemmas about `strip` -/

theorem dropWhile_dropWhile (p : Char → Bool) (l : List Char) :
    List.dropWhile p (List.dropWhile p l) = List.dropWhile p l := by
  induction l with
  | nil => rfl
  | cons c t ih =>
    by_cases h : p c
    · simp [List.dropWhile_cons, h, ih]
    · simp [List.dropWhile_cons, h]

theorem dropWhile_head_false (p : Char → Bool) (l : List Char) (c : Char) (t : List Char)
    (h : List.dropWhile p l = c :: t) : p c = false := by
  induction l with
  | nil => simp at h
  | cons a u ih =>
    rw [List.dropWhile_cons] at h
    split at h
    · exact ih h
    · next hp =>
      injection h with h1 h2
      subst h1
      simpa using hp

theorem dropWhile_is_suffix (p : Char → Bool) (l : List Char) :
    ∃ u, u ++ List.dropWhile p l = l := by
  induction l with
  | nil => exact ⟨[], rfl⟩
  | cons c t ih =>
    by_cases h : p c
    · obtain ⟨u, hu⟩ := ih
      exact ⟨c :: u, by simp [List.dropWhile_cons, h, hu]⟩
    · exact ⟨[], by simp [List.dropWhile_cons, h]⟩

theorem strip_idem (l : List Char) : strip (strip l) = strip l := by
  unfold strip
  have hA : ((l.dropWhile isSpace).reverse.dropWhile isSpace).reverse.dropWhile isSpace =
      ((l.dropWhile isSpace).reverse.dropWhile isSpace).reverse := by
    obtain ⟨pr, hpr⟩ := dropWhile_is_suffix isSpace (l.dropWhile isSpace).reverse
    cases hv : ((l.dropWhile isSpace).reverse.dropWhile isSpace).reverse with
    | nil => rfl
    | cons c t =>
      have hu : l.dropWhile isSpace = c :: (t ++ pr.reverse) := by
        have : l.dropWhile isSpace =
            ((l.dropWhile isSpace).reverse.dropWhile isSpace).reverse ++ pr.reverse := by
          rw [← List.reverse_append, hpr, List.reverse_reverse]
        rw [this, hv, List.cons_append]
      have hc : isSpace c = false := dropWhile_head_false isSpace l c _ hu
      rw [List.dropWhile_cons, hc]
      simp
  rw [hA, List.reverse_reverse, dropWhile_dropWhile]

theorem strip_nil_of_all_space (l : List Char) (h : ∀ c ∈ l, isSpace c = true) :
    strip l = [] := by
  unfold strip
  have h1 : l.dropWhile isSpace = [] := by
    rw [List.dropWhile_eq_nil_iff]
    intro x hx
    simpa using h x hx
  simp [h1]

/-- C10 auxiliary: the invariants of every block `detect_reasoning_tags`
produces. -/
theorem detect_block_shape (text : List Char) (b : Block)
    (hb : b ∈ detect_reasoning_tags text) :
    b.type = strL "reasoning" ∧ b.duration = 1 ∧ b.content ≠ [] ∧
      strip b.content = b.content := by
  unfold detect_reasoning_tags at hb
  rw [List.mem_flatten] at hb
  obtain ⟨bl, hbl, hb⟩ := hb
  rw [List.mem_map] at hbl
  obtain ⟨q, hq, rfl⟩ := hbl
  unfold pairBlocks at hb
  rw [List.mem_filterMap] at hb
  obtain ⟨m, hm, hsome⟩ := hb
  dsimp at hsome
  by_cases he : (strip m.2).isEmpty
  · rw [if_pos he] at hsome
    cases hsome
  · rw [if_neg he] at hsome
    injection hsome with hsome
    subst hsome
    refine ⟨rfl, rfl, ?_, strip_idem m.2⟩
    intro hnil
    exact he (List.isEmpty_iff.mpr hnil)

/-! ### Claim theorems -/

/-- Claim C10: for every input text, every block returned by
`detect_reasoning_tags` has type `"reasoning"`, non-empty content equal
to its own whitespace-trimmed form, and duration exactly `1` regardless
of the input (timestamps are simulated, not measured). -/
theorem c10_block_invariants (text : List Char) (b : Block)
    (hb : b ∈ detect_reasoning_tags text) :
    b.type = strL "reasoning" ∧ b.duration = 1 ∧ b.content ≠ [] ∧
      strip b.content = b.content :=
  detect_block_shape text b hb

theorem c10_witness :
    (⟨strL "reasoning", strL "<think>", strL "</think>", strL "b", 1,
        strL "<think>b</think>"⟩ : Block).type = strL "reasoning" ∧
    (⟨strL "reasoning", strL "<think>", strL "</think>", strL "b", 1,
        strL "<think>b</think>"⟩ : Block).duration = 1 ∧
    (⟨strL "reasoning", strL "<think>", strL "</think>", strL "b", 1,
        strL "<think>b</think>"⟩ : Block).content ≠ [] ∧
    strip (⟨strL "reasoning", strL "<think>", strL "</think>", strL "b", 1,
        strL "<think>b</think>"⟩ : Block).content =
      (⟨strL "reasoning", strL "<think>", strL "</think>", strL "b", 1,
        strL "<think>b</think>"⟩ : Block).content :=
  c10_block_invariants (strL "a<think>b</think>") _ (by decide)

/-- Claim C9: the block summary renders "Thought for 1 second"
(singular) when the duration is 1, and "Thought for {d} seconds"
(plural) for every other duration, including 0 and 2. -/
theorem c9_pluralization (b : Block) :
    (b.duration = 1 → htmlBlock b =
      strL "<details type=\"reasoning\" done=\"true\" duration=\"1\">\n<summary>Thought for 1 second</summary>\n" ++
        formatReasoning b.content ++ strL "\n</details>") ∧
    (b.duration ≠ 1 → htmlBlock b =
      strL "<details type=\"reasoning\" done=\"true\" duration=\"" ++ natChars b.duration ++
        strL "\">\n<summary>Thought for " ++ natChars b.duration ++
        strL " seconds</summary>\n" ++ formatReasoning b.content ++ strL "\n</details>") := by
  constructor
  · intro h
    unfold htmlBlock
    rw [h]
    rfl
  · intro h
    unfold htmlBlock
    rw [if_pos h]
    simp only [List.append_assoc]
    rfl

theorem c9_witness :
    htmlBlock ⟨strL "reasoning", strL "<think>", strL "</think>", strL "x", 1, strL "m"⟩ =
      strL "<details type=\"reasoning\" done=\"true\" duration=\"1\">\n<summary>Thought for 1 second</summary>\n" ++
        formatReasoning (strL "x") ++ strL "\n</details>" ∧
    htmlBlock ⟨strL "reasoning", strL "<think>", strL "</think>", strL "x", 0, strL "m"⟩ =
      strL "<details type=\"reasoning\" done=\"true\" duration=\"" ++ natChars 0 ++
        strL "\">\n<summary>Thought for " ++ natChars 0 ++
        strL " seconds</summary>\n" ++ formatReasoning (strL "x") ++ strL "\n</details>" :=
  ⟨(c9_pluralization _).1 rfl, (c9_pluralization _).2 (by decide)⟩

/-- Claim C7: a start literal with no matching end literal anywhere
after it produces no span (first conjunct, for any start occurrence and
any end literal that never occurs in the remainder), and the concrete
input `"<thinking>Content without closing tag"` yields zero spans and a
residual text equal to the trimmed input. -/
theorem c7_unterminated :
    (∀ s e text p m r : List Char, splitFirstI s text = some (p, m, r) →
        countI e r = 0 → finditer s e text = []) ∧
    detect_reasoning_tags (strL "<thinking>Content without closing tag") = [] ∧
    (process_content (strL "<thinking>Content without closing tag")).main_content =
      strip (strL "<thinking>Content without closing tag") := by
  refine ⟨?_, by decide, by decide⟩
  intro s e text p m r h1 h2
  have h3 : splitFirstI e r = none := by
    unfold splitFirstI
    exact splitFirstBy_none eqI e r h2
  exact finditerFuel_nil s e text (matchOnce_none_snd s e text p m r h1 h3) _

theorem c7_witness :
    finditer (strL "<thinking>") (strL "</thinking>")
      (strL "<thinking>Content without closing tag") = [] :=
  c7_unterminated.1 (strL "<thinking>") (strL "</thinking>")
    (strL "<thinking>Content without closing tag") []
    (strL "<thinking>") (strL "Content without closing tag") (by decide) (by decide)

theorem intercalate_one (sep a : List Char) : List.intercalate sep [a] = a := by
  simp [List.intercalate]

theorem intercalate_two (sep a b : List Char) :
    List.intercalate sep [a, b] = a ++ sep ++ b := by
  simp [List.intercalate, List.intersperse]

theorem intercalate_three (sep a b c : List Char) :
    List.intercalate sep [a, b, c] = a ++ sep ++ b ++ sep ++ c := by
  simp [List.intercalate, List.intersperse]

/-- Claim C6: on a text in which no configured marker pair matches,
`detect_reasoning_tags` returns no span and rendering returns the
original text unchanged except for the whitespace normalization
(`re.sub(r'\n\s*\n', '\n\n', ·).strip()`). -/
theorem c6_no_markers_normalized (text : List Char)
    (hz : ∀ q ∈ DEFAULT_REASONING_TAGS, finditer q.1 q.2 text = []) :
    detect_reasoning_tags text = [] ∧
    (process_content text).main_content = cleanWhitespace text ∧
    generate_html_output (process_content text) = cleanWhitespace text := by
  have hd : detect_reasoning_tags text = [] := by
    unfold detect_reasoning_tags
    apply flatten_map_nil
    intro q hq
    unfold pairBlocks
    rw [hz q hq]
    rfl
  have hp : process_content text = ⟨cleanWhitespace text, [], 0⟩ := by
    unfold process_content
    rw [hd]
    rfl
  refine ⟨hd, by rw [hp], ?_⟩
  rw [hp]
  unfold generate_html_output
  dsimp only
  by_cases hm : (cleanWhitespace text).isEmpty
  · rw [if_pos hm, List.isEmpty_iff.mp hm]
    rfl
  · rw [if_neg hm]
    simpa using intercalate_one (strL "\n\n") (cleanWhitespace text)

theorem c6_witness :
    detect_reasoning_tags (strL "plain text with no markers.") = [] ∧
    (process_content (strL "plain text with no markers.")).main_content =
      cleanWhitespace (strL "plain text with no markers.") ∧
    generate_html_output (process_content (strL "plain text with no markers.")) =
      cleanWhitespace (strL "plain text with no markers.") :=
  c6_no_markers_normalized (strL "plain text with no markers.") (by decide)

/-- Lowered code-point image of a text; two texts with the same image
differ only in ASCII letter case. -/
def keyL (l : List Char) : List Nat := l.map (fun c => lowN c.toNat)

theorem keyL_length (a b : List Char) (hk : keyL a = keyL b) : a.length = b.length := by
  have := congrArg List.length hk
  simpa [keyL] using this

theorem startsWithBy_eqI_needle_congr (s s' h : List Char) (hk : keyL s = keyL s') :
    startsWithBy eqI s h = startsWithBy eqI s' h := by
  induction s generalizing s' h with
  | nil =>
    have hs' : s' = [] := by
      have : keyL s' = [] := hk.symm
      simpa [keyL] using this
    subst hs'
    rfl
  | cons a as ih =>
    cases s' with
    | nil => simp [keyL] at hk
    | cons b bs =>
      simp only [keyL, List.map_cons, List.cons.injEq] at hk
      obtain ⟨h1, h2⟩ := hk
      cases h with
      | nil => rfl
      | cons ch t =>
        show (eqI a ch && startsWithBy eqI as t) = (eqI b ch && startsWithBy eqI bs t)
        rw [ih bs t h2]
        congr 1
        simp [eqI, h1]

theorem startsWithBy_eqI_hay_congr (n a a' r : List Char)
    (hk : keyL a = keyL a') (hlen : n.length ≤ a.length) :
    startsWithBy eqI n (a ++ r) = startsWithBy eqI n (a' ++ r) := by
  induction n generalizing a a' with
  | nil => rfl
  | cons c nt ih =>
    cases a with
    | nil => simp at hlen
    | cons x xs =>
      cases a' with
      | nil => simp [keyL] at hk
      | cons x' xs' =>
        simp only [keyL, List.map_cons, List.cons.injEq] at hk
        obtain ⟨h1, h2⟩ := hk
        simp only [List.cons_append]
        show (eqI c x && startsWithBy eqI nt (xs ++ r)) =
          (eqI c x' && startsWithBy eqI nt (xs' ++ r))
        rw [ih xs xs' h2 (by simpa using hlen)]
        congr 1
        simp [eqI, h1]

theorem stripPrefixBy_eqI_variant (n a r : List Char) (hk : keyL a = keyL n) :
    stripPrefixBy eqI n (a ++ r) = some (a, r) := by
  have hlen : a.length = n.length := keyL_length a n hk
  have hsw : startsWithBy eqI n (a ++ r) = true := by
    rw [startsWithBy_eqI_hay_congr n a n r hk (by omega)]
    exact startsWithBy_refl_append eqI eqI_refl n r
  rw [stripPrefixBy, hsw, if_pos rfl, ← hlen, take_len_append, drop_len_append]

theorem stripPrefixBy_eqI_needle_congr (s s' h : List Char) (hk : keyL s = keyL s') :
    stripPrefixBy eqI s h = stripPrefixBy eqI s' h := by
  unfold stripPrefixBy
  rw [startsWithBy_eqI_needle_congr s s' h hk, keyL_length s s' hk]

theorem scanFirst_congr (att1 att2 : List Char → Option (List Char × List Char))
    (h : ∀ l, att1 l = att2 l) (hay : List Char) :
    scanFirst att1 hay = scanFirst att2 hay := by
  induction hay with
  | nil => simp [scanFirst, h []]
  | cons c t ih => simp [scanFirst, h (c :: t), ih]

theorem splitFirstI_needle_congr (s s' hay : List Char) (hk : keyL s = keyL s') :
    splitFirstI s hay = splitFirstI s' hay := by
  unfold splitFirstI splitFirstBy
  exact scanFirst_congr _ _ (fun l => stripPrefixBy_eqI_needle_congr s s' l hk) hay

theorem matchOnce_needle_congr (s s' e e' hay : List Char)
    (hks : keyL s = keyL s') (hke : keyL e = keyL e') :
    matchOnce s e hay = matchOnce s' e' hay := by
  unfold matchOnce
  rw [splitFirstI_needle_congr s s' hay hks]
  cases splitFirstI s' hay with
  | none => rfl
  | some x =>
    obtain ⟨p, sm, afterS⟩ := x
    dsimp only
    rw [splitFirstI_needle_congr e e' afterS hke]

theorem finditerFuel_needle_congr (s s' e e' : List Char)
    (hks : keyL s = keyL s') (hke : keyL e = keyL e') :
    ∀ (f : Nat) (hay : List Char), finditerFuel s e f hay = finditerFuel s' e' f hay := by
  intro f
  induction f with
  | zero => intro hay; rfl
  | succ f ih =>
    intro hay
    show finditerFuel s e (f + 1) hay = finditerFuel s' e' (f + 1) hay
    simp only [finditerFuel]
    rw [matchOnce_needle_congr s s' e e' hay hks hke]
    cases matchOnce s' e' hay with
    | none => rfl
    | some x =>
      obtain ⟨p, full, grp, rest⟩ := x
      dsimp only
      rw [ih rest]

theorem c2_counterexample :
    detect_reasoning_tags (strL "<THINKING>X</THINKING>") ≠ [] := by decide

/-- Claim C2 (amended): matching is case-insensitive, not
case-sensitive: the matcher's behaviour is invariant under changing the
ASCII letter case of the configured literals, and an occurrence whose
characters differ from the literals only in case does produce a span
(`<THINKING>X</THINKING>` is concretely detected below with its original
casing kept in the matched slice). -/
theorem c2_case_insensitive_amended (s s' e e' hay : List Char)
    (hks : keyL s = keyL s') (hke : keyL e = keyL e') :
    finditer s e hay = finditer s' e' hay ∧
    detect_reasoning_tags (strL "a<Thinking>Y</thinKING>b") =
      [⟨strL "reasoning", strL "<thinking>", strL "</thinking>", strL "Y", 1,
        strL "<Thinking>Y</thinKING>"⟩] := by
  constructor
  · unfold finditer
    rw [finditerFuel_needle_congr s s' e e' hks hke]
  · decide

theorem c2_witness :
    finditer (strL "<THINK>") (strL "</THINK>") (strL "x<think>y</think>") =
      finditer (strL "<think>") (strL "</think>") (strL "x<think>y</think>") ∧
    detect_reasoning_tags (strL "a<Thinking>Y</thinKING>b") =
      [⟨strL "reasoning", strL "<thinking>", strL "</thinking>", strL "Y", 1,
        strL "<Thinking>Y</thinKING>"⟩] :=
  c2_case_insensitive_amended (strL "<THINK>") (strL "<think>") (strL "</THINK>")
    (strL "</think>") (strL "x<think>y</think>") (by decide) (by decide)

set_option maxRecDepth 4000 in
theorem c4_counterexample :
    generate_html_output
      ⟨strL "tail",
        [⟨strL "reasoning", strL "<think>", strL "</think>", strL "AB", 1, strL "XY"⟩,
         ⟨strL "reasoning", strL "<think>", strL "</think>", strL "CD", 1, strL "YZ"⟩], 2⟩ =
      strL "<details type=\"reasoning\" done=\"true\" duration=\"1\">\n<summary>Thought for 1 second</summary>\n> AB\n</details>\n\n<details type=\"reasoning\" done=\"true\" duration=\"1\">\n<summary>Thought for 1 second</summary>\n> CD\n</details>\n\ntail" := by
  decide

/-- Claim C4 (amended): the renderer performs no overlap validation and
has no failure path: for any two artificial spans whose matched regions
overlap in a common source (the regions `u ++ v` and `v ++ w` share the
non-empty slice `v`), it renders both blocks followed by the main
content, exactly as for disjoint spans. -/
theorem c4_renderer_total_amended (m u v w : List Char) (b1 b2 : Block) (tt : Nat)
    (hv : v ≠ []) (h1 : b1.original_match = u ++ v) (h2 : b2.original_match = v ++ w) :
    generate_html_output ⟨m, [b1, b2], tt⟩ =
      htmlBlock b1 ++ strL "\n\n" ++ htmlBlock b2 ++
        (if m.isEmpty then [] else strL "\n\n" ++ m) := by
  unfold generate_html_output
  dsimp only
  simp only [List.map_cons, List.map_nil]
  by_cases hm : m.isEmpty
  · rw [if_pos hm, if_pos hm, intercalate_two]
    simp
  · rw [if_neg hm, if_neg hm]
    show List.intercalate (strL "\n\n") [htmlBlock b1, htmlBlock b2, m] = _
    rw [intercalate_three]
    simp [List.append_assoc]

theorem c4_witness :
    generate_html_output
      ⟨strL "m",
        [⟨strL "reasoning", strL "<think>", strL "</think>", strL "AB", 1, strL "XY"⟩,
         ⟨strL "reasoning", strL "<think>", strL "</think>", strL "CD", 1, strL "YZ"⟩], 2⟩ =
      htmlBlock ⟨strL "reasoning", strL "<think>", strL "</think>", strL "AB", 1, strL "XY"⟩ ++
        strL "\n\n" ++
        htmlBlock ⟨strL "reasoning", strL "<think>", strL "</think>", strL "CD", 1, strL "YZ"⟩ ++
        (if (strL "m").isEmpty then [] else strL "\n\n" ++ strL "m") :=
  c4_renderer_total_amended (strL "m") (strL "X") (strL "Y") (strL "Z") _ _ 2
    (by decide) (by decide) (by decide)

theorem drop_append_le (a b : List Char) (i : Nat) (h : i ≤ a.length) :
    (a ++ b).drop i = a.drop i ++ b := by
  induction a generalizing i with
  | nil =>
    have : i = 0 := by simpa using h
    subst this
    rfl
  | cons c t ih =>
    cases i with
    | zero => rfl
    | succ i => exact ih i (by simpa using h)

theorem eqI_lt_of_space (ch : Char) (h : isSpace ch = true) : eqI '<' ch = false := by
  simp only [isSpace, Bool.or_eq_true, beq_iff_eq] at h
  rcases h with ((((h | h) | h) | h) | h) | h <;> subst h <;> decide

theorem c5_counterexample :
    detect_reasoning_tags (strL "<thinking></thinking>") = [] ∧
    detect_reasoning_tags (strL "<thinking>   </thinking>") = [] := by
  constructor <;> decide

/-- Claim C5 (amended): the matcher filters out matches whose content is
empty or whitespace-only after trimming — such an occurrence produces no
span at all (so the filtering happens inside the matcher, not
downstream): for every whitespace-only `ws`, the text
`"<thinking>" ++ ws ++ "</thinking>"` yields no blocks when no other
configured start literal occurs in it. -/
theorem c5_empty_filtered_amended (ws : List Char)
    (hws : ∀ ch ∈ ws, isSpace ch = true)
    (ho : ∀ q ∈ DEFAULT_REASONING_TAGS, q ≠ (strL "<thinking>", strL "</thinking>") →
        countI q.1 (strL "<thinking>" ++ (ws ++ strL "</thinking>")) = 0) :
    detect_reasoning_tags (strL "<thinking>" ++ (ws ++ strL "</thinking>")) = [] := by
  have hsT : splitFirstI (strL "<thinking>") (strL "<thinking>" ++ (ws ++ strL "</thinking>")) =
      some ([], strL "<thinking>", ws ++ strL "</thinking>") := by
    unfold splitFirstI
    exact splitFirstBy_head eqI eqI_refl _ _
  have hsE : splitFirstI (strL "</thinking>") (ws ++ strL "</thinking>") =
      some (ws, strL "</thinking>", []) := by
    unfold splitFirstI splitFirstBy
    have hnone : ∀ i, i < ws.length →
        stripPrefixBy eqI (strL "</thinking>") ((ws ++ strL "</thinking>").drop i) = none := by
      intro i hi
      rw [drop_append_le ws _ i (Nat.le_of_lt hi)]
      have hne : ws.drop i ≠ [] := by
        intro hnil
        have hlen := List.length_drop i ws
        rw [hnil] at hlen
        simp at hlen
        omega
      obtain ⟨ch, t', hch⟩ := List.exists_cons_of_ne_nil hne
      rw [hch, List.cons_append]
      have hmem : ch ∈ ws := by
        have : ch ∈ ws.drop i := by
          rw [hch]
          exact List.mem_cons_self _ _
        exact List.mem_of_mem_drop this
      have hsw : startsWithBy eqI (strL "</thinking>") (ch :: (t' ++ strL "</thinking>")) = false := by
        rw [show strL "</thinking>" = '<' :: strL "/thinking>" from rfl]
        show (eqI '<' ch && _) = false
        rw [eqI_lt_of_space ch (hws ch hmem)]
        rfl
      simp [stripPrefixBy, hsw]
    rw [scanFirst_append _ ws (strL "</thinking>") hnone]
    have hhead : scanFirst (stripPrefixBy eqI (strL "</thinking>")) (strL "</thinking>") =
        some ([], strL "</thinking>", []) := by
      have h2 := splitFirstBy_head eqI eqI_refl (strL "</thinking>") []
      unfold splitFirstBy at h2
      simpa using h2
    rw [hhead]
    simp
  have hmatch : matchOnce (strL "<thinking>") (strL "</thinking>")
      (strL "<thinking>" ++ (ws ++ strL "</thinking>")) =
      some ([], strL "<thinking>" ++ ws ++ strL "</thinking>", ws, []) :=
    matchOnce_eq _ _ _ _ _ _ _ _ _ hsT hsE
  have hfind : finditer (strL "<thinking>") (strL "</thinking>")
      (strL "<thinking>" ++ (ws ++ strL "</thinking>")) =
      [(strL "<thinking>" ++ ws ++ strL "</thinking>", ws)] := by
    unfold finditer
    rw [finditerFuel_succ_some _ _ _ _ _ _ _ _ hmatch,
      finditerFuel_nil _ _ []
        (show matchOnce (strL "<thinking>") (strL "</thinking>") [] = none from rfl)]
  have hpb : pairBlocks (strL "<thinking>" ++ (ws ++ strL "</thinking>"))
      (strL "<thinking>", strL "</thinking>") = [] := by
    unfold pairBlocks
    rw [hfind]
    have hstrip : strip ws = [] := strip_nil_of_all_space ws hws
    simp [List.filterMap_cons, hstrip]
  unfold detect_reasoning_tags
  apply flatten_map_nil
  intro q hq
  by_cases hqe : q = (strL "<thinking>", strL "</thinking>")
  · subst hqe
    exact hpb
  · unfold pairBlocks
    rw [finditer_nil_of_no_start _ _ _ (ho q hq hqe)]
    rfl

theorem c5_witness :
    detect_reasoning_tags (strL "<thinking>" ++ (strL " \n " ++ strL "</thinking>")) = [] :=
  c5_empty_filtered_amended (strL " \n ") (by decide) (by decide)

theorem c1_counterexample :
    detect_reasoning_tags (strL "<thinking> </thinking>") = [] ∧
    (process_content (strL "<thinking> </thinking>")).main_content =
      strL "<thinking> </thinking>" := by
  constructor <;> decide

theorem tags_fst_ne_nil : ∀ q ∈ DEFAULT_REASONING_TAGS, q.1 ≠ [] ∧ q.2 ≠ [] := by
  decide

/-- Claim C1 (amended): for a text `pre ++ s ++ c ++ e ++ suf` built
from a configured pair `(s, e)`, in which `s` and `e` each occur
(case-insensitively) at exactly one position, no other configured start
literal occurs, and `c` trims to a non-empty string, `detect` returns
exactly one span whose content is the trimmed `c`, and processing
removes the full matched region so the residual is `pre ++ suf` after
whitespace normalization.  (As stated, the claim fails when `c` is
whitespace-only, and exact-occurrence side conditions must be read
case-insensitively.) -/
theorem c1_single_pair_amended (s e pre c suf : List Char)
    (hmem : (s, e) ∈ DEFAULT_REASONING_TAGS)
    (hcs : countI s (pre ++ (s ++ (c ++ (e ++ suf)))) = 1)
    (hce : countI e (pre ++ (s ++ (c ++ (e ++ suf)))) = 1)
    (ho : ∀ q ∈ DEFAULT_REASONING_TAGS, q ≠ (s, e) →
        countI q.1 (pre ++ (s ++ (c ++ (e ++ suf)))) = 0)
    (hc : strip c ≠ []) :
    detect_reasoning_tags (pre ++ (s ++ (c ++ (e ++ suf)))) =
      [⟨strL "reasoning", s, e, strip c, 1, s ++ c ++ e⟩] ∧
    (process_content (pre ++ (s ++ (c ++ (e ++ suf))))).main_content =
      cleanWhitespace (pre ++ suf) ∧
    (process_content (pre ++ (s ++ (c ++ (e ++ suf))))).reasoning_blocks =
      [⟨strL "reasoning", s, e, strip c, 1, s ++ c ++ e⟩] := by
  have hs0 : s ≠ [] := ((tags_fst_ne_nil (s, e) hmem).1)
  have hfind : finditer s e (pre ++ (s ++ (c ++ (e ++ suf)))) = [(s ++ c ++ e, c)] :=
    finditer_single s e pre c suf hs0 hcs hce
  have hdet : detect_reasoning_tags (pre ++ (s ++ (c ++ (e ++ suf)))) =
      pairBlocks (pre ++ (s ++ (c ++ (e ++ suf)))) (s, e) :=
    detect_single _ (s, e) hmem
      (fun q hq hne => finditer_nil_of_no_start q.1 q.2 _ (ho q hq hne))
  have hnemp : ¬(strip c).isEmpty = true := fun h => hc (List.isEmpty_iff.mp h)
  have hpb : pairBlocks (pre ++ (s ++ (c ++ (e ++ suf)))) (s, e) =
      [⟨strL "reasoning", s, e, strip c, 1, s ++ c ++ e⟩] := by
    unfold pairBlocks
    rw [hfind]
    simp only [List.filterMap_cons, List.filterMap_nil]
    rw [if_neg hnemp]
  have hassoc : (s ++ c ++ e) ++ suf = s ++ (c ++ (e ++ suf)) := by
    simp [List.append_assoc]
  have hm0 : (s ++ c ++ e) ≠ [] := by
    intro h
    simp only [List.append_eq_nil] at h
    exact hs0 h.1.1
  have hmono1 : ∀ u, startsWithBy eqI (s ++ c ++ e) u = true →
      startsWithBy eqI s u = true := by
    intro u hu
    rw [List.append_assoc] at hu
    exact startsWithBy_of_append eqI s (c ++ e) u hu
  have hle1 : countBy eqI (s ++ c ++ e) (pre ++ (s ++ (c ++ (e ++ suf)))) ≤
      countBy eqI s (pre ++ (s ++ (c ++ (e ++ suf)))) := countBy_le_countBy hmono1 _
  have hle2 : countBy eqE (s ++ c ++ e) (pre ++ (s ++ (c ++ (e ++ suf)))) ≤
      countBy eqI (s ++ c ++ e) (pre ++ (s ++ (c ++ (e ++ suf)))) :=
    countBy_le_countBy (fun u hu => startsWithBy_imp eqE_imp_eqI _ u hu) _
  have h1E : 1 ≤ countBy eqE (s ++ c ++ e) ((s ++ c ++ e) ++ suf) :=
    countBy_pos eqE _ _ (startsWithBy_refl_append eqE eqE_refl _ suf)
  have h2E : countBy eqE (s ++ c ++ e) ((s ++ c ++ e) ++ suf) ≤
      countBy eqE (s ++ c ++ e) (pre ++ ((s ++ c ++ e) ++ suf)) :=
    countBy_ge_right eqE _ pre _
  rw [hassoc] at h1E h2E
  have hEtext : countE (s ++ c ++ e) (pre ++ ((s ++ c ++ e) ++ suf)) = 1 := by
    unfold countE
    rw [hassoc]
    unfold countI at hcs
    omega
  have hrepl : replaceAll (s ++ c ++ e) (pre ++ (s ++ (c ++ (e ++ suf)))) = pre ++ suf := by
    have hr := replaceAll_single (s ++ c ++ e) pre suf hm0 hEtext
    rw [hassoc] at hr
    exact hr
  have hp : process_content (pre ++ (s ++ (c ++ (e ++ suf)))) =
      ⟨cleanWhitespace (pre ++ suf),
       [⟨strL "reasoning", s, e, strip c, 1, s ++ c ++ e⟩], 1⟩ := by
    unfold process_content
    rw [hdet, hpb]
    dsimp only [List.foldl, List.map, List.sum]
    rw [hrepl]
    rfl
  refine ⟨by rw [hdet, hpb], by rw [hp], by rw [hp]⟩

theorem c1_witness :
    detect_reasoning_tags (strL "Hello.\n" ++ (strL "<thinking>" ++
        (strL " Because. " ++ (strL "</thinking>" ++ strL "\nBye.")))) =
      [⟨strL "reasoning", strL "<thinking>", strL "</thinking>", strL "Because.", 1,
        strL "<thinking>" ++ strL " Because. " ++ strL "</thinking>"⟩] ∧
    (process_content (strL "Hello.\n" ++ (strL "<thinking>" ++
        (strL " Because. " ++ (strL "</thinking>" ++ strL "\nBye."))))).main_content =
      cleanWhitespace (strL "Hello.\n" ++ strL "\nBye.") ∧
    (process_content (strL "Hello.\n" ++ (strL "<thinking>" ++
        (strL " Because. " ++ (strL "</thinking>" ++ strL "\nBye."))))).reasoning_blocks =
      [⟨strL "reasoning", strL "<thinking>", strL "</thinking>", strL "Because.", 1,
        strL "<thinking>" ++ strL " Because. " ++ strL "</thinking>"⟩] := by
  have h := c1_single_pair_amended (strL "<thinking>") (strL "</thinking>")
    (strL "Hello.\n") (strL " Because. ") (strL "\nBye.")
    (by decide) (by decide) (by decide) (by decide) (by decide)
  simpa using h

set_option maxRecDepth 20000 in
theorem c3_counterexample :
    detect_reasoning_tags (strL "<reasoning>A</reasoning> mid <thinking>B</thinking> tail") =
      [⟨strL "reasoning", strL "<thinking>", strL "</thinking>", strL "B", 1,
        strL "<thinking>B</thinking>"⟩,
       ⟨strL "reasoning", strL "<reasoning>", strL "</reasoning>", strL "A", 1,
        strL "<reasoning>A</reasoning>"⟩] ∧
    generate_html_output
        (process_content (strL "<reasoning>A</reasoning> mid <thinking>B</thinking> tail")) =
      strL "<details type=\"reasoning\" done=\"true\" duration=\"1\">\n<summary>Thought for 1 second</summary>\n> B\n</details>\n\n<details type=\"reasoning\" done=\"true\" duration=\"1\">\n<summary>Thought for 1 second</summary>\n> A\n</details>\n\nmid  tail" := by
  constructor <;> decide

/-- Claim C3 (amended): for a text containing exactly one
`<reasoning>...</reasoning>` span followed by exactly one
`<thinking>...</thinking>` span, `detect` returns exactly two spans,
each attributed to its correct pair, and the residual text has both
full-span regions removed; however, the rendered document lists the
blocks in the marker table's enumeration order (`<thinking>` blocks
before `<reasoning>` blocks), not by their spans' positions in the
source text. -/
theorem c3_two_pairs_amended (x y z rc tc : List Char)
    (hsR : countI (strL "<reasoning>") (x ++ (strL "<reasoning>" ++ (rc ++
        (strL "</reasoning>" ++ (y ++ (strL "<thinking>" ++ (tc ++ (strL "</thinking>" ++ z)))))))) = 1)
    (heR : countI (strL "</reasoning>") (x ++ (strL "<reasoning>" ++ (rc ++
        (strL "</reasoning>" ++ (y ++ (strL "<thinking>" ++ (tc ++ (strL "</thinking>" ++ z)))))))) = 1)
    (hsT : countI (strL "<thinking>") (x ++ (strL "<reasoning>" ++ (rc ++
        (strL "</reasoning>" ++ (y ++ (strL "<thinking>" ++ (tc ++ (strL "</thinking>" ++ z)))))))) = 1)
    (heT : countI (strL "</thinking>") (x ++ (strL "<reasoning>" ++ (rc ++
        (strL "</reasoning>" ++ (y ++ (strL "<thinking>" ++ (tc ++ (strL "</thinking>" ++ z)))))))) = 1)
    (ho : ∀ q ∈ DEFAULT_REASONING_TAGS,
        q ≠ (strL "<thinking>", strL "</thinking>") →
        q ≠ (strL "<reasoning>", strL "</reasoning>") →
        countI q.1 (x ++ (strL "<reasoning>" ++ (rc ++
          (strL "</reasoning>" ++ (y ++ (strL "<thinking>" ++ (tc ++ (strL "</thinking>" ++ z)))))))) = 0)
    (hrc : strip rc ≠ []) (htc : strip tc ≠ [])
    (hred : countI (strL "<reasoning>") (x ++ (strL "<reasoning>" ++ (rc ++
        (strL "</reasoning>" ++ (y ++ z))))) = 1) :
    detect_reasoning_tags (x ++ (strL "<reasoning>" ++ (rc ++
        (strL "</reasoning>" ++ (y ++ (strL "<thinking>" ++ (tc ++ (strL "</thinking>" ++ z)))))))) =
      [⟨strL "reasoning", strL "<thinking>", strL "</thinking>", strip tc, 1,
        strL "<thinking>" ++ tc ++ strL "</thinking>"⟩,
       ⟨strL "reasoning", strL "<reasoning>", strL "</reasoning>", strip rc, 1,
        strL "<reasoning>" ++ rc ++ strL "</reasoning>"⟩] ∧
    (process_content (x ++ (strL "<reasoning>" ++ (rc ++
        (strL "</reasoning>" ++ (y ++ (strL "<thinking>" ++ (tc ++ (strL "</thinking>" ++ z)))))))) ).main_content =
      cleanWhitespace (x ++ (y ++ z)) ∧
    generate_html_output (process_content (x ++ (strL "<reasoning>" ++ (rc ++
        (strL "</reasoning>" ++ (y ++ (strL "<thinking>" ++ (tc ++ (strL "</thinking>" ++ z)))))))) ) =
      htmlBlock ⟨strL "reasoning", strL "<thinking>", strL "</thinking>", strip tc, 1,
          strL "<thinking>" ++ tc ++ strL "</thinking>"⟩ ++ strL "\n\n" ++
        htmlBlock ⟨strL "reasoning", strL "<reasoning>", strL "</reasoning>", strip rc, 1,
          strL "<reasoning>" ++ rc ++ strL "</reasoning>"⟩ ++
        (if (cleanWhitespace (x ++ (y ++ z))).isEmpty then []
         else strL "\n\n" ++ cleanWhitespace (x ++ (y ++ z))) := by
  have hfR : finditer (strL "<reasoning>") (strL "</reasoning>")
      (x ++ (strL "<reasoning>" ++ (rc ++ (strL "</reasoning>" ++
        (y ++ (strL "<thinking>" ++ (tc ++ (strL "</thinking>" ++ z)))))))) =
      [(strL "<reasoning>" ++ rc ++ strL "</reasoning>", rc)] :=
    finditer_single _ _ x rc _ (by decide) hsR heR
  have e1 : x ++ (strL "<reasoning>" ++ (rc ++ (strL "</reasoning>" ++
        (y ++ (strL "<thinking>" ++ (tc ++ (strL "</thinking>" ++ z))))))) =
      (x ++ (strL "<reasoning>" ++ (rc ++ (strL "</reasoning>" ++ y)))) ++
        (strL "<thinking>" ++ (tc ++ (strL "</thinking>" ++ z))) := by
    simp [List.append_assoc]
  have hsT' := hsT
  have heT' := heT
  rw [e1] at hsT' heT'
  have hfT : finditer (strL "<thinking>") (strL "</thinking>")
      (x ++ (strL "<reasoning>" ++ (rc ++ (strL "</reasoning>" ++
        (y ++ (strL "<thinking>" ++ (tc ++ (strL "</thinking>" ++ z)))))))) =
      [(strL "<thinking>" ++ tc ++ strL "</thinking>", tc)] := by
    rw [e1]
    exact finditer_single _ _ _ tc z (by decide) hsT' heT'
  have hnT : ¬(strip tc).isEmpty = true := fun h => htc (List.isEmpty_iff.mp h)
  have hnR : ¬(strip rc).isEmpty = true := fun h => hrc (List.isEmpty_iff.mp h)
  have pbT : pairBlocks (x ++ (strL "<reasoning>" ++ (rc ++ (strL "</reasoning>" ++
        (y ++ (strL "<thinking>" ++ (tc ++ (strL "</thinking>" ++ z))))))))
      (strL "<thinking>", strL "</thinking>") =
      [⟨strL "reasoning", strL "<thinking>", strL "</thinking>", strip tc, 1,
        strL "<thinking>" ++ tc ++ strL "</thinking>"⟩] := by
    unfold pairBlocks
    rw [hfT]
    simp only [List.filterMap_cons, List.filterMap_nil]
    rw [if_neg hnT]
  have pbR : pairBlocks (x ++ (strL "<reasoning>" ++ (rc ++ (strL "</reasoning>" ++
        (y ++ (strL "<thinking>" ++ (tc ++ (strL "</thinking>" ++ z))))))))
      (strL "<reasoning>", strL "</reasoning>") =
      [⟨strL "reasoning", strL "<reasoning>", strL "</reasoning>", strip rc, 1,
        strL "<reasoning>" ++ rc ++ strL "</reasoning>"⟩] := by
    unfold pairBlocks
    rw [hfR]
    simp only [List.filterMap_cons, List.filterMap_nil]
    rw [if_neg hnR]
  have hz : ∀ q ∈ DEFAULT_REASONING_TAGS,
      q ≠ (strL "<thinking>", strL "</thinking>") →
      q ≠ (strL "<reasoning>", strL "</reasoning>") →
      pairBlocks (x ++ (strL "<reasoning>" ++ (rc ++ (strL "</reasoning>" ++
        (y ++ (strL "<thinking>" ++ (tc ++ (strL "</thinking>" ++ z)))))))) q = [] := by
    intro q hq h1 h2
    unfold pairBlocks
    rw [finditer_nil_of_no_start _ _ _ (ho q hq h1 h2)]
    rfl
  have hdetect : detect_reasoning_tags (x ++ (strL "<reasoning>" ++ (rc ++
      (strL "</reasoning>" ++ (y ++ (strL "<thinking>" ++ (tc ++ (strL "</thinking>" ++ z)))))))) =
      [⟨strL "reasoning", strL "<thinking>", strL "</thinking>", strip tc, 1,
        strL "<thinking>" ++ tc ++ strL "</thinking>"⟩,
       ⟨strL "reasoning", strL "<reasoning>", strL "</reasoning>", strip rc, 1,
        strL "<reasoning>" ++ rc ++ strL "</reasoning>"⟩] := by
    unfold detect_reasoning_tags DEFAULT_REASONING_TAGS
    simp only [List.map_cons, List.map_nil, List.flatten_cons, List.flatten_nil]
    rw [hz _ (by decide) (by decide) (by decide), pbT,
      hz _ (by decide) (by decide) (by decide), pbR,
      hz _ (by decide) (by decide) (by decide),
      hz _ (by decide) (by decide) (by decide),
      hz _ (by decide) (by decide) (by decide),
      hz _ (by decide) (by decide) (by decide)]
    rfl
  have hmonoT : ∀ u, startsWithBy eqI (strL "<thinking>" ++ tc ++ strL "</thinking>") u = true →
      startsWithBy eqI (strL "<thinking>") u = true := by
    intro u hu
    rw [List.append_assoc] at hu
    exact startsWithBy_of_append eqI _ _ u hu
  have e2 : (x ++ (strL "<reasoning>" ++ (rc ++ (strL "</reasoning>" ++ y)))) ++
      ((strL "<thinking>" ++ tc ++ strL "</thinking>") ++ z) =
      x ++ (strL "<reasoning>" ++ (rc ++ (strL "</reasoning>" ++
        (y ++ (strL "<thinking>" ++ (tc ++ (strL "</thinking>" ++ z))))))) := by
    simp [List.append_assoc]
  have hET : countE (strL "<thinking>" ++ tc ++ strL "</thinking>")
      ((x ++ (strL "<reasoning>" ++ (rc ++ (strL "</reasoning>" ++ y)))) ++
        ((strL "<thinking>" ++ tc ++ strL "</thinking>") ++ z)) = 1 := by
    have hle1 := countBy_le_countBy hmonoT
      (x ++ (strL "<reasoning>" ++ (rc ++ (strL "</reasoning>" ++
        (y ++ (strL "<thinking>" ++ (tc ++ (strL "</thinking>" ++ z))))))))
    have hle2 := countBy_le_countBy
      (fun u hu => startsWithBy_imp eqE_imp_eqI
        (strL "<thinking>" ++ tc ++ strL "</thinking>") u hu)
      (x ++ (strL "<reasoning>" ++ (rc ++ (strL "</reasoning>" ++
        (y ++ (strL "<thinking>" ++ (tc ++ (strL "</thinking>" ++ z))))))))
    have h1E : 1 ≤ countBy eqE (strL "<thinking>" ++ tc ++ strL "</thinking>")
        ((strL "<thinking>" ++ tc ++ strL "</thinking>") ++ z) :=
      countBy_pos eqE _ _ (startsWithBy_refl_append eqE eqE_refl _ z)
    have h2E := countBy_ge_right eqE (strL "<thinking>" ++ tc ++ strL "</thinking>")
      (x ++ (strL "<reasoning>" ++ (rc ++ (strL "</reasoning>" ++ y))))
      ((strL "<thinking>" ++ tc ++ strL "</thinking>") ++ z)
    unfold countE
    unfold countI at hsT
    rw [e2]
    rw [e2] at h2E
    omega
  have r1 : replaceAll (strL "<thinking>" ++ tc ++ strL "</thinking>")
      (x ++ (strL "<reasoning>" ++ (rc ++ (strL "</reasoning>" ++
        (y ++ (strL "<thinking>" ++ (tc ++ (strL "</thinking>" ++ z)))))))) =
      x ++ (strL "<reasoning>" ++ (rc ++ (strL "</reasoning>" ++ (y ++ z)))) := by
    have e2' : (x ++ (strL "<reasoning>" ++ (rc ++ (strL "</reasoning>" ++ y)))) ++
        ((strL "<thinking>" ++ tc ++ strL "</thinking>") ++ z) =
        (x ++ (strL "<reasoning>" ++ (rc ++ (strL "</reasoning>" ++ y)))) ++
          ((strL "<thinking>" ++ tc ++ strL "</thinking>") ++ z) := rfl
    have hr := replaceAll_single (strL "<thinking>" ++ tc ++ strL "</thinking>")
      (x ++ (strL "<reasoning>" ++ (rc ++ (strL "</reasoning>" ++ y)))) z
      (by simp; intro h1 h2; exact absurd h1 (by decide))
      (by rw [← List.append_assoc] at hET ⊢; exact hET)
    rw [show (x ++ (strL "<reasoning>" ++ (rc ++ (strL "</reasoning>" ++ y)))) ++
        ((strL "<thinking>" ++ tc ++ strL "</thinking>") ++ z) =
        x ++ (strL "<reasoning>" ++ (rc ++ (strL "</reasoning>" ++
          (y ++ (strL "<thinking>" ++ (tc ++ (strL "</thinking>" ++ z))))))) from e2] at hr
    rw [hr]
    simp [List.append_assoc]
  have hmonoR : ∀ u, startsWithBy eqI (strL "<reasoning>" ++ rc ++ strL "</reasoning>") u = true →
      startsWithBy eqI (strL "<reasoning>") u = true := by
    intro u hu
    rw [List.append_assoc] at hu
    exact startsWithBy_of_append eqI _ _ u hu
  have e4 : x ++ ((strL "<reasoning>" ++ rc ++ strL "</reasoning>") ++ (y ++ z)) =
      x ++ (strL "<reasoning>" ++ (rc ++ (strL "</reasoning>" ++ (y ++ z)))) := by
    simp [List.append_assoc]
  have hER : countE (strL "<reasoning>" ++ rc ++ strL "</reasoning>")
      (x ++ ((strL "<reasoning>" ++ rc ++ strL "</reasoning>") ++ (y ++ z))) = 1 := by
    have hle1 := countBy_le_countBy hmonoR
      (x ++ (strL "<reasoning>" ++ (rc ++ (strL "</reasoning>" ++ (y ++ z)))))
    have hle2 := countBy_le_countBy
      (fun u hu => startsWithBy_imp eqE_imp_eqI
        (strL "<reasoning>" ++ rc ++ strL "</reasoning>") u hu)
      (x ++ (strL "<reasoning>" ++ (rc ++ (strL "</reasoning>" ++ (y ++ z)))))
    have h1E : 1 ≤ countBy eqE (strL "<reasoning>" ++ rc ++ strL "</reasoning>")
        ((strL "<reasoning>" ++ rc ++ strL "</reasoning>") ++ (y ++ z)) :=
      countBy_pos eqE _ _ (startsWithBy_refl_append eqE eqE_refl _ (y ++ z))
    have h2E := countBy_ge_right eqE (strL "<reasoning>" ++ rc ++ strL "</reasoning>")
      x ((strL "<reasoning>" ++ rc ++ strL "</reasoning>") ++ (y ++ z))
    unfold countE
    unfold countI at hred
    rw [e4]
    rw [e4] at h2E
    omega
  have r2 : replaceAll (strL "<reasoning>" ++ rc ++ strL "</reasoning>")
      (x ++ (strL "<reasoning>" ++ (rc ++ (strL "</reasoning>" ++ (y ++ z))))) =
      x ++ (y ++ z) := by
    have hr := replaceAll_single (strL "<reasoning>" ++ rc ++ strL "</reasoning>")
      x (y ++ z) (by simp; intro h1 h2; exact absurd h1 (by decide)) hER
    rw [e4] at hr
    exact hr
  have hp : process_content (x ++ (strL "<reasoning>" ++ (rc ++ (strL "</reasoning>" ++
      (y ++ (strL "<thinking>" ++ (tc ++ (strL "</thinking>" ++ z)))))))) =
      ⟨cleanWhitespace (x ++ (y ++ z)),
       [⟨strL "reasoning", strL "<thinking>", strL "</thinking>", strip tc, 1,
         strL "<thinking>" ++ tc ++ strL "</thinking>"⟩,
        ⟨strL "reasoning", strL "<reasoning>", strL "</reasoning>", strip rc, 1,
         strL "<reasoning>" ++ rc ++ strL "</reasoning>"⟩], 2⟩ := by
    unfold process_content
    rw [hdetect]
    dsimp only [List.foldl, List.map, List.sum]
    rw [r1, r2]
    rfl
  refine ⟨hdetect, by rw [hp], ?_⟩
  rw [hp]
  unfold generate_html_output
  dsimp only
  simp only [List.map_cons, List.map_nil]
  by_cases hm : (cleanWhitespace (x ++ (y ++ z))).isEmpty
  · rw [if_pos hm, if_pos hm, intercalate_two]
    simp
  · rw [if_neg hm, if_neg hm]
    rw [show ([htmlBlock ⟨strL "reasoning", strL "<thinking>", strL "</thinking>", strip tc, 1,
          strL "<thinking>" ++ tc ++ strL "</thinking>"⟩,
        htmlBlock ⟨strL "reasoning", strL "<reasoning>", strL "</reasoning>", strip rc, 1,
          strL "<reasoning>" ++ rc ++ strL "</reasoning>"⟩] ++
        [cleanWhitespace (x ++ (y ++ z))]) =
      [htmlBlock ⟨strL "reasoning", strL "<thinking>", strL "</thinking>", strip tc, 1,
          strL "<thinking>" ++ tc ++ strL "</thinking>"⟩,
        htmlBlock ⟨strL "reasoning", strL "<reasoning>", strL "</reasoning>", strip rc, 1,
          strL "<reasoning>" ++ rc ++ strL "</reasoning>"⟩,
        cleanWhitespace (x ++ (y ++ z))] from rfl, intercalate_three]
    simp [List.append_assoc]

theorem c3_witness :
    detect_reasoning_tags (strL "A " ++ (strL "<reasoning>" ++ (strL "rr" ++
        (strL "</reasoning>" ++ (strL " B " ++ (strL "<thinking>" ++
          (strL "tt" ++ (strL "</thinking>" ++ strL " C")))))))) =
      [⟨strL "reasoning", strL "<thinking>", strL "</thinking>", strip (strL "tt"), 1,
        strL "<thinking>" ++ strL "tt" ++ strL "</thinking>"⟩,
       ⟨strL "reasoning", strL "<reasoning>", strL "</reasoning>", strip (strL "rr"), 1,
        strL "<reasoning>" ++ strL "rr" ++ strL "</reasoning>"⟩] ∧
    (process_content (strL "A " ++ (strL "<reasoning>" ++ (strL "rr" ++
        (strL "</reasoning>" ++ (strL " B " ++ (strL "<thinking>" ++
          (strL "tt" ++ (strL "</thinking>" ++ strL " C"))))))))).main_content =
      cleanWhitespace (strL "A " ++ (strL " B " ++ strL " C")) ∧
    generate_html_output (process_content (strL "A " ++ (strL "<reasoning>" ++ (strL "rr" ++
        (strL "</reasoning>" ++ (strL " B " ++ (strL "<thinking>" ++
          (strL "tt" ++ (strL "</thinking>" ++ strL " C"))))))))) =
      htmlBlock ⟨strL "reasoning", strL "<thinking>", strL "</thinking>", strip (strL "tt"), 1,
          strL "<thinking>" ++ strL "tt" ++ strL "</thinking>"⟩ ++ strL "\n\n" ++
        htmlBlock ⟨strL "reasoning", strL "<reasoning>", strL "</reasoning>", strip (strL "rr"), 1,
          strL "<reasoning>" ++ strL "rr" ++ strL "</reasoning>"⟩ ++
        (if (cleanWhitespace (strL "A " ++ (strL " B " ++ strL " C"))).isEmpty then []
         else strL "\n\n" ++ cleanWhitespace (strL "A " ++ (strL " B " ++ strL " C"))) :=
  c3_two_pairs_amended (strL "A ") (strL " B ") (strL " C") (strL "rr") (strL "tt")
    (by decide) (by decide) (by decide) (by decide) (by decide) (by decide) (by decide)
    (by decide)

theorem removeTypeFuel_id (ty hay : List Char)
    (h : scanFirst (detailsTryHead ty) hay = none) :
    ∀ f, removeTypeFuel ty f hay = hay := by
  intro f
  cases f with
  | zero => rfl
  | succ f => simp [removeTypeFuel, h]

theorem removeTypeFuel_succ_some (ty hay p mm rest : List Char) (f : Nat)
    (h : scanFirst (detailsTryHead ty) hay = some (p, mm, rest)) :
    removeTypeFuel ty (f + 1) hay = p ++ removeTypeFuel ty f rest := by
  simp [removeTypeFuel, h]

theorem takeWhile_all_append_cons (p : Char → Bool) (a : List Char) (bh : Char)
    (bt : List Char) (ha : ∀ ch ∈ a, p ch = true) (hb : p bh = false) :
    (a ++ (bh :: bt)).takeWhile p = a ∧ (a ++ (bh :: bt)).dropWhile p = bh :: bt := by
  induction a with
  | nil => simp [List.takeWhile_cons, List.dropWhile_cons, hb]
  | cons c t ih =>
    have hc : p c = true := ha c (List.mem_cons_self c t)
    have iht := ih (fun ch hch => ha ch (List.mem_cons_of_mem c hch))
    simp [List.takeWhile_cons, List.dropWhile_cons, hc, iht.1, iht.2]

theorem head_of_keyL_cons (a : List Char) (k : Nat) (ks : List Nat)
    (hk : keyL a = k :: ks) : ∃ ch a', a = ch :: a' ∧ lowN ch.toNat = k := by
  cases a with
  | nil => simp [keyL] at hk
  | cons ch a' =>
    simp only [keyL, List.map_cons, List.cons.injEq] at hk
    exact ⟨ch, a', rfl, hk.1⟩

theorem not_space_of_lowN_116 (ch : Char) (h : lowN ch.toNat = 116) :
    isSpace ch = false := by
  by_cases hs : isSpace ch = true
  · exfalso
    simp only [isSpace, Bool.or_eq_true, beq_iff_eq] at hs
    rcases hs with ((((hh | hh) | hh) | hh) | hh) | hh <;> subst hh <;>
      exact absurd h (by decide)
  · simpa using hs

theorem detailsTryHead_none_of_no_dS (ty hay : List Char)
    (h : startsWithBy eqI (strL "<details") hay = false) :
    detailsTryHead ty hay = none := by
  unfold detailsTryHead
  have hnone : stripPrefixBy eqI (strL "<details") hay = none := by
    unfold stripPrefixBy
    rw [h]
    rfl
  rw [hnone]

theorem detailsTryHead_block (ty d w tv at1 cnt cd rest : List Char)
    (hd : keyL d = keyL (strL "<details"))
    (hw : w ≠ []) (hws : ∀ ch ∈ w, isSpace ch = true)
    (htv : keyL tv = keyL (strL "type=\"" ++ ty ++ strL "\""))
    (hat : ∀ ch ∈ at1, ch ≠ '>')
    (hcd : keyL cd = keyL (strL "</details>"))
    (hcnt : countI (strL "</details>") (cnt ++ (cd ++ rest)) =
      countI (strL "</details>") (cd ++ rest)) :
    detailsTryHead ty
      (d ++ (w ++ (tv ++ (at1 ++ (strL ">" ++ (cnt ++ (cd ++ rest))))))) =
      some (d ++ w ++ tv ++ at1 ++ strL ">" ++ cnt ++ cd, rest) := by
  obtain ⟨ch, tvt, htvc, hch⟩ :=
    head_of_keyL_cons tv 116 (keyL (strL "ype=\"" ++ ty ++ strL "\""))
      (by rw [htv]; rfl)
  have hchs : isSpace ch = false := not_space_of_lowN_116 ch hch
  have hsplit := takeWhile_all_append_cons isSpace w ch
    (tvt ++ (at1 ++ (strL ">" ++ (cnt ++ (cd ++ rest))))) hws hchs
  have hw1 : (w ++ (tv ++ (at1 ++ (strL ">" ++ (cnt ++ (cd ++ rest)))))).takeWhile isSpace
      = w := by
    rw [htvc, List.cons_append]
    exact hsplit.1
  have hw2 : (w ++ (tv ++ (at1 ++ (strL ">" ++ (cnt ++ (cd ++ rest)))))).dropWhile isSpace
      = tv ++ (at1 ++ (strL ">" ++ (cnt ++ (cd ++ rest)))) := by
    rw [htvc, List.cons_append]
    exact hsplit.2
  have hwne : w.isEmpty = false := by
    cases w with
    | nil => exact absurd rfl hw
    | cons a b => rfl
  have htvstep : stripPrefixBy eqI (strL "type=\"" ++ ty ++ strL "\"")
      (tv ++ (at1 ++ (strL ">" ++ (cnt ++ (cd ++ rest))))) =
      some (tv, at1 ++ (strL ">" ++ (cnt ++ (cd ++ rest)))) :=
    stripPrefixBy_eqI_variant _ tv _ htv
  have hatstep := takeWhile_all_append_cons (fun c => decide (c ≠ '>')) at1 '>'
    (cnt ++ (cd ++ rest)) (fun c hc => by simpa using hat c hc) (by decide)
  have hcdstep : splitFirstI (strL "</details>") (cnt ++ (cd ++ rest)) =
      some (cnt, cd, rest) := by
    unfold splitFirstI
    unfold countI at hcnt
    rw [splitFirstBy_append eqI _ cnt (cd ++ rest) hcnt]
    have hhead : splitFirstBy eqI (strL "</details>") (cd ++ rest) =
        some ([], cd, rest) :=
      scanFirst_pos _ _ _ _ (stripPrefixBy_eqI_variant _ cd rest hcd)
    rw [hhead]
    simp
  unfold detailsTryHead
  rw [stripPrefixBy_eqI_variant (strL "<details") d _ hd]
  dsimp only
  rw [hw1, hw2, hwne]
  simp only [Bool.false_eq_true, if_false]
  rw [htvstep]
  dsimp only
  rw [show ((at1 ++ (strL ">" ++ (cnt ++ (cd ++ rest)))).takeWhile fun c => c ≠ '>') = at1
    from hatstep.1]
  rw [drop_len_append at1 (strL ">" ++ (cnt ++ (cd ++ rest)))]
  rw [show stripPrefixBy eqE (strL ">") (strL ">" ++ (cnt ++ (cd ++ rest))) =
      some (strL ">", cnt ++ (cd ++ rest)) from
    stripPrefixBy_refl_append eqE eqE_refl _ _]
  dsimp only
  rw [hcdstep]

theorem detailsTryHead_mismatch (ty d w tv X : List Char)
    (hd : keyL d = keyL (strL "<details"))
    (hw : w ≠ []) (hws : ∀ ch ∈ w, isSpace ch = true)
    (htvh : ∃ ch tvt, tv = ch :: tvt ∧ isSpace ch = false)
    (hmis : startsWithBy eqI (strL "type=\"" ++ ty ++ strL "\"") (tv ++ X) = false) :
    detailsTryHead ty (d ++ (w ++ (tv ++ X))) = none := by
  obtain ⟨ch, tvt, htvc, hchs⟩ := htvh
  have hsplit := takeWhile_all_append_cons isSpace w ch (tvt ++ X) hws hchs
  have hw1 : (w ++ (tv ++ X)).takeWhile isSpace = w := by
    rw [htvc, List.cons_append]
    exact hsplit.1
  have hw2 : (w ++ (tv ++ X)).dropWhile isSpace = tv ++ X := by
    rw [htvc, List.cons_append]
    exact hsplit.2
  have hwne : w.isEmpty = false := by
    cases w with
    | nil => exact absurd rfl hw
    | cons a b => rfl
  have hnone : stripPrefixBy eqI (strL "type=\"" ++ ty ++ strL "\"") (tv ++ X) = none := by
    unfold stripPrefixBy
    rw [hmis]
    rfl
  unfold detailsTryHead
  rw [stripPrefixBy_eqI_variant (strL "<details") d _ hd]
  dsimp only
  rw [hw1, hw2, hwne]
  simp only [Bool.false_eq_true, if_false]
  rw [hnone]

/-- Claim C8: removing the named block types "reasoning" and
"code_interpreter" from a text in which two such wrapper blocks are
interleaved with plain text deletes each entire
opening-wrapper-through-closing-wrapper region and retains exactly the
plain segments in order; the type name and the wrapper literals match
case-insensitively, extra attributes may sit between the type
declaration and the closing angle bracket, and all other text is kept
byte for byte.  (The operation is the regex-removal loop of
`test_remove_details_functionality`.) -/
theorem c8_remove_details (p0 p1 p2 d1 w1 tv1 at1 c1 cd1 d2 w2 tv2 at2 c2 cd2 : List Char)
    (hd1 : keyL d1 = keyL (strL "<details"))
    (hw1 : w1 ≠ []) (hws1 : ∀ ch ∈ w1, isSpace ch = true)
    (htv1 : keyL tv1 = keyL (strL "type=\"reasoning\""))
    (hat1 : ∀ ch ∈ at1, ch ≠ '>')
    (hcd1 : keyL cd1 = keyL (strL "</details>"))
    (hd2 : keyL d2 = keyL (strL "<details"))
    (hw2 : w2 ≠ []) (hws2 : ∀ ch ∈ w2, isSpace ch = true)
    (htv2 : keyL tv2 = keyL (strL "type=\"code_interpreter\""))
    (hat2 : ∀ ch ∈ at2, ch ≠ '>')
    (hcd2 : keyL cd2 = keyL (strL "</details>"))
    (hA : countI (strL "<details")
        (p0 ++ (d1 ++ (w1 ++ (tv1 ++ (at1 ++ (strL ">" ++ (c1 ++ (cd1 ++ (p1 ++
          (d2 ++ (w2 ++ (tv2 ++ (at2 ++ (strL ">" ++ (c2 ++ (cd2 ++ p2)))))))))))))))) =
      countI (strL "<details")
        (d1 ++ (w1 ++ (tv1 ++ (at1 ++ (strL ">" ++ (c1 ++ (cd1 ++ (p1 ++
          (d2 ++ (w2 ++ (tv2 ++ (at2 ++ (strL ">" ++ (c2 ++ (cd2 ++ p2))))))))))))))))
    (hB : countI (strL "<details")
        (p1 ++ (d2 ++ (w2 ++ (tv2 ++ (at2 ++ (strL ">" ++ (c2 ++ (cd2 ++ p2)))))))) =
      countI (strL "<details")
        (d2 ++ (w2 ++ (tv2 ++ (at2 ++ (strL ">" ++ (c2 ++ (cd2 ++ p2))))))))
    (hC : countI (strL "<details")
        (d2 ++ (w2 ++ (tv2 ++ (at2 ++ (strL ">" ++ (c2 ++ (cd2 ++ p2))))))) = 1)
    (hD : countI (strL "</details>")
        (c1 ++ (cd1 ++ (p1 ++ (d2 ++ (w2 ++ (tv2 ++ (at2 ++ (strL ">" ++
          (c2 ++ (cd2 ++ p2)))))))))) =
      countI (strL "</details>")
        (cd1 ++ (p1 ++ (d2 ++ (w2 ++ (tv2 ++ (at2 ++ (strL ">" ++
          (c2 ++ (cd2 ++ p2))))))))))
    (hE : countI (strL "<details")
        (p0 ++ (p1 ++ (d2 ++ (w2 ++ (tv2 ++ (at2 ++ (strL ">" ++ (c2 ++ (cd2 ++ p2))))))))) =
      countI (strL "<details")
        (d2 ++ (w2 ++ (tv2 ++ (at2 ++ (strL ">" ++ (c2 ++ (cd2 ++ p2))))))))
    (hF : countI (strL "</details>") (c2 ++ (cd2 ++ p2)) =
      countI (strL "</details>") (cd2 ++ p2)) :
    removeDetails [strL "reasoning", strL "code_interpreter"]
      (p0 ++ (d1 ++ (w1 ++ (tv1 ++ (at1 ++ (strL ">" ++ (c1 ++ (cd1 ++ (p1 ++
        (d2 ++ (w2 ++ (tv2 ++ (at2 ++ (strL ">" ++ (c2 ++ (cd2 ++ p2)))))))))))))))) =
      p0 ++ (p1 ++ p2) := by
  unfold countI at hA hB hC hD hE hF
  have m1 : detailsTryHead (strL "reasoning")
      (d1 ++ (w1 ++ (tv1 ++ (at1 ++ (strL ">" ++ (c1 ++ (cd1 ++ (p1 ++
        (d2 ++ (w2 ++ (tv2 ++ (at2 ++ (strL ">" ++ (c2 ++ (cd2 ++ p2))))))))))))))) =
      some (d1 ++ w1 ++ tv1 ++ at1 ++ strL ">" ++ c1 ++ cd1,
        p1 ++ (d2 ++ (w2 ++ (tv2 ++ (at2 ++ (strL ">" ++ (c2 ++ (cd2 ++ p2)))))))) :=
    detailsTryHead_block (strL "reasoning") d1 w1 tv1 at1 c1 cd1 _
      hd1 hw1 hws1 (by rw [htv1]; rfl) hat1 hcd1 hD
  have scan1 : scanFirst (detailsTryHead (strL "reasoning"))
      (p0 ++ (d1 ++ (w1 ++ (tv1 ++ (at1 ++ (strL ">" ++ (c1 ++ (cd1 ++ (p1 ++
        (d2 ++ (w2 ++ (tv2 ++ (at2 ++ (strL ">" ++ (c2 ++ (cd2 ++ p2)))))))))))))))) =
      some (p0, d1 ++ w1 ++ tv1 ++ at1 ++ strL ">" ++ c1 ++ cd1,
        p1 ++ (d2 ++ (w2 ++ (tv2 ++ (at2 ++ (strL ">" ++ (c2 ++ (cd2 ++ p2)))))))) := by
    rw [scanFirst_append _ p0 _ (fun i hi => detailsTryHead_none_of_no_dS _ _
      (no_starts_of_countBy_eq eqI (strL "<details") p0 _ hA i hi))]
    rw [scanFirst_pos _ _ _ _ m1]
    simp
  obtain ⟨chd, d2t, hd2c, hlow2⟩ :=
    head_of_keyL_cons d2 60 (keyL (strL "details")) (by rw [hd2]; rfl)
  obtain ⟨chv, tv2t, htv2c, hlowv⟩ :=
    head_of_keyL_cons tv2 116 (keyL (strL "ype=\"code_interpreter\"")) (by rw [htv2]; rfl)
  have hmis : startsWithBy eqI (strL "type=\"" ++ strL "reasoning" ++ strL "\"")
      (tv2 ++ (at2 ++ (strL ">" ++ (c2 ++ (cd2 ++ p2))))) = false := by
    rw [startsWithBy_eqI_hay_congr _ tv2 (strL "type=\"code_interpreter\"") _ htv2
      (by rw [keyL_length tv2 _ htv2]; decide)]
    rfl
  have hmm2 : detailsTryHead (strL "reasoning")
      (d2 ++ (w2 ++ (tv2 ++ (at2 ++ (strL ">" ++ (c2 ++ (cd2 ++ p2))))))) = none :=
    detailsTryHead_mismatch (strL "reasoning") d2 w2 tv2 _ hd2 hw2 hws2
      ⟨chv, tv2t, htv2c, not_space_of_lowN_116 chv hlowv⟩ hmis
  have hstart2 : startsWithBy eqI (strL "<details")
      (d2 ++ (w2 ++ (tv2 ++ (at2 ++ (strL ">" ++ (c2 ++ (cd2 ++ p2))))))) = true := by
    rw [startsWithBy_eqI_hay_congr (strL "<details") d2 (strL "<details") _ hd2
      (by rw [keyL_length d2 _ hd2])]
    exact startsWithBy_refl_append eqI eqI_refl _ _
  have hcz : countBy eqI (strL "<details")
      (d2t ++ (w2 ++ (tv2 ++ (at2 ++ (strL ">" ++ (c2 ++ (cd2 ++ p2))))))) = 0 := by
    have hcons := countBy_cons eqI (strL "<details") chd
      (d2t ++ (w2 ++ (tv2 ++ (at2 ++ (strL ">" ++ (c2 ++ (cd2 ++ p2)))))))
    have hC' : countBy eqI (strL "<details")
        (chd :: (d2t ++ (w2 ++ (tv2 ++ (at2 ++ (strL ">" ++ (c2 ++ (cd2 ++ p2)))))))) = 1 := by
      rw [← List.cons_append, ← hd2c]
      exact hC
    have hs' : startsWithBy eqI (strL "<details")
        (chd :: (d2t ++ (w2 ++ (tv2 ++ (at2 ++ (strL ">" ++ (c2 ++ (cd2 ++ p2)))))))) = true := by
      rw [← List.cons_append, ← hd2c]
      exact hstart2
    rw [hs'] at hcons
    simp at hcons
    omega
  have scanT1 : scanFirst (detailsTryHead (strL "reasoning"))
      (d2 ++ (w2 ++ (tv2 ++ (at2 ++ (strL ">" ++ (c2 ++ (cd2 ++ p2))))))) = none := by
    rw [hd2c, List.cons_append]
    rw [scanFirst_cons_none _ _ _ (by rw [← List.cons_append, ← hd2c]; exact hmm2)]
    rw [scanFirst_none _ _ (fun i hi => detailsTryHead_none_of_no_dS _ _
      (no_starts_of_countBy_zero eqI (strL "<details") _ hcz i hi))]
    rfl
  have scan2 : scanFirst (detailsTryHead (strL "reasoning"))
      (p1 ++ (d2 ++ (w2 ++ (tv2 ++ (at2 ++ (strL ">" ++ (c2 ++ (cd2 ++ p2)))))))) = none := by
    rw [scanFirst_append _ p1 _ (fun i hi => detailsTryHead_none_of_no_dS _ _
      (no_starts_of_countBy_eq eqI (strL "<details") p1 _ hB i hi))]
    rw [scanT1]
    rfl
  have r1 : removeType (strL "reasoning")
      (p0 ++ (d1 ++ (w1 ++ (tv1 ++ (at1 ++ (strL ">" ++ (c1 ++ (cd1 ++ (p1 ++
        (d2 ++ (w2 ++ (tv2 ++ (at2 ++ (strL ">" ++ (c2 ++ (cd2 ++ p2)))))))))))))))) =
      p0 ++ (p1 ++ (d2 ++ (w2 ++ (tv2 ++ (at2 ++ (strL ">" ++ (c2 ++ (cd2 ++ p2)))))))) := by
    unfold removeType
    rw [removeTypeFuel_succ_some _ _ _ _ _ _ scan1, removeTypeFuel_id _ _ scan2]
  have m2 : detailsTryHead (strL "code_interpreter")
      (d2 ++ (w2 ++ (tv2 ++ (at2 ++ (strL ">" ++ (c2 ++ (cd2 ++ p2))))))) =
      some (d2 ++ w2 ++ tv2 ++ at2 ++ strL ">" ++ c2 ++ cd2, p2) :=
    detailsTryHead_block (strL "code_interpreter") d2 w2 tv2 at2 c2 cd2 p2
      hd2 hw2 hws2 (by rw [htv2]; rfl) hat2 hcd2 hF
  have hE' : countBy eqI (strL "<details")
      (p0 ++ (p1 ++ (d2 ++ (w2 ++ (tv2 ++ (at2 ++ (strL ">" ++ (c2 ++ (cd2 ++ p2))))))))) =
      countBy eqI (strL "<details")
        (p1 ++ (d2 ++ (w2 ++ (tv2 ++ (at2 ++ (strL ">" ++ (c2 ++ (cd2 ++ p2)))))))) := by
    omega
  have scan3 : scanFirst (detailsTryHead (strL "code_interpreter"))
      (p0 ++ (p1 ++ (d2 ++ (w2 ++ (tv2 ++ (at2 ++ (strL ">" ++ (c2 ++ (cd2 ++ p2))))))))) =
      some (p0 ++ p1, d2 ++ w2 ++ tv2 ++ at2 ++ strL ">" ++ c2 ++ cd2, p2) := by
    rw [scanFirst_append _ p0 _ (fun i hi => detailsTryHead_none_of_no_dS _ _
      (no_starts_of_countBy_eq eqI (strL "<details") p0 _ hE' i hi))]
    rw [scanFirst_append _ p1 _ (fun i hi => detailsTryHead_none_of_no_dS _ _
      (no_starts_of_countBy_eq eqI (strL "<details") p1 _ hB i hi))]
    rw [scanFirst_pos _ _ _ _ m2]
    simp
  have hcp2 : countBy eqI (strL "<details") p2 = 0 := by
    have h1 := countBy_ge_right eqI (strL "<details") cd2 p2
    have h2 := countBy_ge_right eqI (strL "<details") c2 (cd2 ++ p2)
    have h3 := countBy_ge_right eqI (strL "<details") (strL ">") (c2 ++ (cd2 ++ p2))
    have h4 := countBy_ge_right eqI (strL "<details") at2
      (strL ">" ++ (c2 ++ (cd2 ++ p2)))
    have h5 := countBy_ge_right eqI (strL "<details") tv2
      (at2 ++ (strL ">" ++ (c2 ++ (cd2 ++ p2))))
    have h6 := countBy_ge_right eqI (strL "<details") w2
      (tv2 ++ (at2 ++ (strL ">" ++ (c2 ++ (cd2 ++ p2)))))
    have h7 := countBy_ge_right eqI (strL "<details") d2t
      (w2 ++ (tv2 ++ (at2 ++ (strL ">" ++ (c2 ++ (cd2 ++ p2))))))
    omega
  have scan4 : scanFirst (detailsTryHead (strL "code_interpreter")) p2 = none :=
    scanFirst_none _ _ (fun i hi => detailsTryHead_none_of_no_dS _ _
      (no_starts_of_countBy_zero eqI (strL "<details") _ hcp2 i hi))
  have r2 : removeType (strL "code_interpreter")
      (p0 ++ (p1 ++ (d2 ++ (w2 ++ (tv2 ++ (at2 ++ (strL ">" ++ (c2 ++ (cd2 ++ p2))))))))) =
      (p0 ++ p1) ++ p2 := by
    unfold removeType
    rw [removeTypeFuel_succ_some _ _ _ _ _ _ scan3, removeTypeFuel_id _ _ scan4]
  show removeType (strL "code_interpreter") (removeType (strL "reasoning") _) = _
  rw [r1, r2]
  simp [List.append_assoc]

theorem c8_witness :
    removeDetails [strL "reasoning", strL "code_interpreter"]
      (strL "A " ++ (strL "<DETAILS" ++ (strL " " ++ (strL "TYPE=\"Reasoning\"" ++
        (strL " done=\"true\"" ++ (strL ">" ++ (strL "\nx\n" ++ (strL "</Details>" ++
          (strL " B " ++ (strL "<details" ++ (strL " " ++ (strL "type=\"code_interpreter\"" ++
            (strL "" ++ (strL ">" ++ (strL "y" ++ (strL "</details>" ++
              strL " C")))))))))))))))) =
      strL "A " ++ (strL " B " ++ strL " C") :=
  c8_remove_details (strL "A ") (strL " B ") (strL " C")
    (strL "<DETAILS") (strL " ") (strL "TYPE=\"Reasoning\"") (strL " done=\"true\"")
    (strL "\nx\n") (strL "</Details>")
    (strL "<details") (strL " ") (strL "type=\"code_interpreter\"") (strL "")
    (strL "y") (strL "</details>")
    (by decide) (by decide) (by decide) (by decide) (by decide) (by decide)
    (by decide) (by decide) (by decide) (by decide) (by decide) (by decide)
    (by decide) (by decide) (by decide) (by decide) (by decide) (by decide)
